import Mathlib

/-!
Verification of the Memoria capture service core (src/server/main.py,
src/server/storage.py) against its natural-language specification.

Python strings are modelled as `List Char`; Python `datetime` values as a
record of calendar fields plus an optional UTC-offset (minutes); fallible
Python operations (datetime construction, `replace`, `astimezone`, timedelta
arithmetic) return `Except PyErr _`, erroring exactly where CPython raises.
-/

set_option maxRecDepth 10000

namespace Memoria

abbrev Str := List Char

def S (s : String) : Str := s.data

/-- A single space, the replacement text used by `_extract_due`. -/
def spc : Str := [' ']

/-- Python `str.isspace` character class restricted to ASCII whitespace
(the only whitespace the sources produce): space, \t, \n, \r, \x0b, \x0c. -/
def pySpace (c : Char) : Bool :=
  c = ' ' ∨ c = '\t' ∨ c = '\n' ∨ c = '\r' ∨ c = '\x0b' ∨ c = '\x0c'

/-- Regex word character `\w` (ASCII): `[A-Za-z0-9_]`. -/
def isWordCh (c : Char) : Bool :=
  ('a' ≤ c ∧ c ≤ 'z') ∨ ('A' ≤ c ∧ c ≤ 'Z') ∨ ('0' ≤ c ∧ c ≤ '9') ∨ c = '_'

def isDigitCh (c : Char) : Bool := '0' ≤ c ∧ c ≤ '9'

def digVal (c : Char) : Nat := c.toNat - 48

/-- ASCII lower-casing, as done by `str.lower()` / `re.I` on ASCII input. -/
def lowCh (c : Char) : Char :=
  if 'A' ≤ c ∧ c ≤ 'Z' then Char.ofNat (c.toNat + 32) else c

def lowStr (s : Str) : Str := s.map lowCh

/-- Case-insensitive character equality (regex flag `re.I`). -/
def eqCI (a b : Char) : Bool := lowCh a = lowCh b

/-- Python `str.strip()` (no argument): remove leading and trailing whitespace. -/
def pyStrip (s : Str) : Str :=
  ((s.dropWhile pySpace).reverse.dropWhile pySpace).reverse

/-- Core of Python `str.replace(old, new)` for a non-empty `old = o :: os`:
left-to-right, non-overlapping replacement of every occurrence.  The fuel
argument (one unit per character consumed) only makes the recursion
structural; `pyReplace` supplies enough for the whole string. -/
def replAux (o : Char) (os : Str) (new : Str) : Nat → Str → Str
  | _, [] => []
  | 0, s => s
  | fuel + 1, c :: cs =>
    if (o :: os).isPrefixOf (c :: cs) then
      new ++ replAux o os new fuel (cs.drop os.length)
    else
      c :: replAux o os new fuel cs

/-- Python `str.replace(old, new)`.  (The recognizers never produce an empty
matched span, so the empty-`old` case is immaterial; we leave the string
unchanged there.) -/
def pyReplace (s old new : Str) : Str :=
  match old with
  | [] => s
  | o :: os => replAux o os new s.length s

/-- Tokenizer behind Python `str.split()`: `acc` holds the (reversed) current
word. -/
def pySplitAux : Str → Str → List Str
  | [], acc => if acc.isEmpty then [] else [acc.reverse]
  | c :: cs, acc =>
    if pySpace c then
      if acc.isEmpty then pySplitAux cs [] else acc.reverse :: pySplitAux cs []
    else pySplitAux cs (c :: acc)

/-- Python `str.split()` (no argument): split on whitespace runs, dropping
empty pieces. -/
def pySplit (s : Str) : List Str := pySplitAux s []

/-- Python `" ".join(words)`. -/
def joinSp : List Str → Str
  | [] => []
  | [w] => w
  | w :: ws => w ++ ' ' :: joinSp ws

/-- `" ".join(text.split())`: collapse all whitespace runs to single spaces
and trim the ends — the final clean-up step of `_extract_due`. -/
def collapse (s : Str) : Str := joinSp (pySplit s)

/-- Python substring test `needle in hay` (`str.__contains__`). -/
def strIn (needle : Str) : Str → Bool
  | [] => needle.isEmpty
  | c :: cs => needle.isPrefixOf (c :: cs) || strIn needle cs

/-- Python `str.startswith`. -/
def pyStartsWith (s pre : Str) : Bool := pre.isPrefixOf s

/-! ## The `datetime` model

CPython `datetime.datetime` values: Gregorian calendar fields plus an
optional fixed UTC offset in minutes (`tzinfo`).  The sources never produce
microseconds or sub-minute offsets, so neither is modelled.  Errors raised
by CPython (ValueError on out-of-range fields, OverflowError on arithmetic
leaving the year range 1..9999) are modelled by `Except PyErr`. -/

inductive PyErr where
  | valueError : PyErr
  | overflowError : PyErr
deriving DecidableEq, Repr

structure PyDateTime where
  year : Nat
  month : Nat
  day : Nat
  hour : Nat
  minute : Nat
  second : Nat
  /-- `tzinfo` as a UTC offset in minutes; `none` = naive. -/
  tz : Option Int
deriving DecidableEq, Repr

def isLeap (y : Nat) : Bool := y % 4 = 0 ∧ (y % 100 ≠ 0 ∨ y % 400 = 0)

def daysInMonth (y m : Nat) : Nat :=
  if m = 1 then 31 else if m = 2 then (if isLeap y then 29 else 28)
  else if m = 3 then 31 else if m = 4 then 30 else if m = 5 then 31
  else if m = 6 then 30 else if m = 7 then 31 else if m = 8 then 31
  else if m = 9 then 30 else if m = 10 then 31 else if m = 11 then 30
  else 31

/-- Days in the years before year `y` (CPython `_days_before_year`). -/
def daysBeforeYear (y : Nat) : Nat :=
  let p := y - 1
  p * 365 + p / 4 - p / 100 + p / 400

/-- Days in year `y` preceding month `m` (CPython `_days_before_month`). -/
def daysBeforeMonth (y m : Nat) : Nat :=
  (List.range (m - 1)).foldl (fun a i => a + daysInMonth y (i + 1)) 0

/-- Proleptic-Gregorian ordinal of a date, with 0001-01-01 = 1
(CPython `_ymd2ord`). -/
def ymd2ord (y m d : Nat) : Nat := daysBeforeYear y + daysBeforeMonth y m + d

/-- Highest valid ordinal: 9999-12-31 (CPython `_MAXORDINAL`). -/
def maxOrdinal : Nat := 3652059

/-- Inverse of `ymd2ord` (CPython `_ord2ymd`); the month is located by a
scan over the twelve months, which computes the same month/day as CPython's
estimate-and-adjust code. -/
def ord2ymd (n : Nat) : Nat × Nat × Nat :=
  let n0 := n - 1
  let n400 := n0 / 146097
  let r400 := n0 % 146097
  let n100 := r400 / 36524
  let r100 := r400 % 36524
  let n4 := r100 / 1461
  let r4 := r100 % 1461
  let n1 := r4 / 365
  let r1 := r4 % 365
  let year := n400 * 400 + n100 * 100 + n4 * 4 + n1 + 1
  if n1 = 4 ∨ n100 = 4 then
    (year - 1, 12, 31)
  else
    -- locate the month of day-of-year `r1` (0-based)
    let rec go (y doy m : Nat) : Nat × Nat :=
      match m with
      | 0 => (12, doy + 1)  -- unreachable for doy < 365/366
      | k + 1 =>
        let mo := 13 - (k + 1)
        let dim := daysInMonth y mo
        if doy < dim then (mo, doy + 1) else go y (doy - dim) k
    let (mo, da) := go year r1 12
    (year, mo, da)

/-- Wall-clock seconds since 0001-01-01T00:00:00 (timezone ignored). -/
def wallSecs (d : PyDateTime) : Nat :=
  (ymd2ord d.year d.month d.day - 1) * 86400 + d.hour * 3600 + d.minute * 60 + d.second

/-- Absolute (UTC) seconds since 0001-01-01T00:00:00 UTC for an aware value:
wall clock minus the UTC offset. -/
def absSecs (d : PyDateTime) : Int :=
  (wallSecs d : Int) - (d.tz.getD 0) * 60

/-- Naive `datetime` comparison (`<` on naive values compares the fields,
equivalently wall-clock seconds). -/
def wallLt (a b : PyDateTime) : Bool := wallSecs a < wallSecs b

/-- Aware `datetime` comparison: absolute instants. -/
def absLt (a b : PyDateTime) : Bool := absSecs a < absSecs b

def absLe (a b : PyDateTime) : Bool := absSecs a ≤ absSecs b

/-- The `datetime(...)` constructor: ValueError outside CPython's field
ranges. -/
def pyDatetime (y mo da h mi s : Nat) (tz : Option Int) : Except PyErr PyDateTime :=
  if 1 ≤ y ∧ y ≤ 9999 ∧ 1 ≤ mo ∧ mo ≤ 12 ∧ 1 ≤ da ∧ da ≤ daysInMonth y mo ∧
     h ≤ 23 ∧ mi ≤ 59 ∧ s ≤ 59 then
    .ok ⟨y, mo, da, h, mi, s, tz⟩
  else
    .error .valueError

/-- `d.replace(hour=H, minute=M, second=0, microsecond=0)`: validates the new
fields like the constructor. -/
def pyReplaceTime (d : PyDateTime) (h mi : Nat) : Except PyErr PyDateTime :=
  if h ≤ 23 ∧ mi ≤ 59 then .ok { d with hour := h, minute := mi, second := 0 }
  else .error .valueError

/-- `d.replace(year=y)`: revalidates (so Feb 29 → a non-leap year raises). -/
def pyReplaceYear (d : PyDateTime) (y : Nat) : Except PyErr PyDateTime :=
  pyDatetime y d.month d.day d.hour d.minute d.second d.tz

/-- `d + timedelta(seconds=secs)` (also days/minutes/hours): OverflowError when
the result leaves year range 1..9999, as in CPython. -/
def addSecs (d : PyDateTime) (secs : Int) : Except PyErr PyDateTime :=
  let t : Int := (wallSecs d : Int) + secs
  if 0 ≤ t ∧ t < (maxOrdinal : Int) * 86400 then
    let tn := t.toNat
    let (y, mo, da) := ord2ymd (tn / 86400 + 1)
    let r := tn % 86400
    .ok ⟨y, mo, da, r / 3600, r % 3600 / 60, r % 60, d.tz⟩
  else
    .error .overflowError

def addDays (d : PyDateTime) (n : Int) : Except PyErr PyDateTime := addSecs d (n * 86400)

/-- Python `datetime.weekday()`: Monday = 0 .. Sunday = 6.
(0001-01-01, ordinal 1, was a Monday.) -/
def pyWeekday (d : PyDateTime) : Nat := (ymd2ord d.year d.month d.day + 6) % 7

/-! ### ISO-8601 rendering (`datetime.isoformat()`) -/

def digCh (n : Nat) : Char := Char.ofNat (48 + n)

def pad2 (n : Nat) : Str := [digCh (n / 10 % 10), digCh (n % 10)]

def pad4 (n : Nat) : Str :=
  [digCh (n / 1000 % 10), digCh (n / 100 % 10), digCh (n / 10 % 10), digCh (n % 10)]

/-- `±HH:MM` rendering of a `timezone` offset (minutes). -/
def renderOff (off : Int) : Str :=
  (if off < 0 then ['-'] else ['+']) ++ pad2 (off.natAbs / 60) ++ ':' :: pad2 (off.natAbs % 60)

/-- `datetime.isoformat()` for second-precision values: the offset suffix is
present iff the value is aware. -/
def isoformat (d : PyDateTime) : Str :=
  pad4 d.year ++ '-' :: pad2 d.month ++ '-' :: pad2 d.day ++
  'T' :: pad2 d.hour ++ ':' :: pad2 d.minute ++ ':' :: pad2 d.second ++
  (match d.tz with
   | none => []
   | some off => renderOff off)

/-- `strftime('%Y%m%d_%H%M%S')`, used for recurring-occurrence ids. -/
def strftimeCompact (d : PyDateTime) : Str :=
  pad4 d.year ++ pad2 d.month ++ pad2 d.day ++ '_' :: pad2 d.hour ++ pad2 d.minute ++ pad2 d.second

/-! ## Regular-expression matching for `_extract_due`

Each `re.search(pattern, text, re.I)` call of `_extract_due` is modelled by a
hand-written matcher for that concrete pattern, with `re`'s leftmost-match
rule (earliest starting index), greedy quantifiers, ordered alternation and
backtracking.  Candidate positions for each choice point are enumerated in
the regex engine's preference order and the continuation is tried on each
(`firstSome`), which is exactly backtracking. -/

def firstSome {α β} : List α → (α → Option β) → Option β
  | [], _ => none
  | x :: xs, f => match f x with | some b => some b | none => firstSome xs f

def getC (cs : Str) (i : Nat) : Option Char := cs.get? i

def isWordAt (cs : Str) (i : Nat) : Bool :=
  match getC cs i with | some c => isWordCh c | none => false

/-- `\b`: a word/non-word transition at position `i` (out of bounds counts as
non-word). -/
def bdyAt (cs : Str) (i : Nat) : Bool :=
  (if i = 0 then false else isWordAt cs (i - 1)) != isWordAt cs i

/-- Consume a literal case-insensitively (`re.I`); returns the next index. -/
def litCI (cs : Str) (i : Nat) : Str → Option Nat
  | [] => some i
  | l :: ls =>
    match getC cs i with
    | some c => if eqCI c l then litCI cs (i + 1) ls else none
    | none => none

def sliceS (cs : Str) (i j : Nat) : Str := (cs.drop i).take (j - i)

def spaceRunAux : Str → Nat
  | [] => 0
  | c :: cs => if pySpace c then spaceRunAux cs + 1 else 0

def spaceRun (cs : Str) (i : Nat) : Nat := spaceRunAux (cs.drop i)

def digitRunAux : Str → Nat
  | [] => 0
  | c :: cs => if isDigitCh c then digitRunAux cs + 1 else 0

def digitRun (cs : Str) (i : Nat) : Nat := digitRunAux (cs.drop i)

def digitsVal (cs : Str) (i len : Nat) : Nat :=
  ((cs.drop i).take len).foldl (fun a c => a * 10 + digVal c) 0

/-- `\s*`: candidate next-positions, longest first. -/
def starCands (cs : Str) (i : Nat) : List Nat :=
  let r := spaceRun cs i
  (List.range (r + 1)).map (fun k => i + (r - k))

/-- `\s+`: candidate next-positions, longest first (empty when no space). -/
def plusCands (cs : Str) (i : Nat) : List Nat :=
  let r := spaceRun cs i
  (List.range r).map (fun k => i + (r - k))

/-- `\d{1,maxL}`: candidate `(value, next)` pairs, longest first. -/
def digCands (cs : Str) (i maxL : Nat) : List (Nat × Nat) :=
  let L := min maxL (digitRun cs i)
  (List.range L).map (fun k => let l := L - k; (digitsVal cs i l, i + l))

/-- `\d{n}` (exact). -/
def digitsExact (cs : Str) (i n : Nat) : Option (Nat × Nat) :=
  if n ≤ digitRun cs i then some (digitsVal cs i n, i + n) else none

/-- Ordered alternation of case-insensitive literals; the captured text is
reported in lower case (every use site lower-cases the capture). -/
def altCands (cs : Str) (i : Nat) (alts : List Str) : List (Str × Nat) :=
  alts.filterMap (fun a => (litCI cs i a).map (fun j => (a, j)))

/-- `(?::(\d{2}))?`: present (colon + two digits) first, then absent. -/
def colonOptCands (cs : Str) (i : Nat) : List (Option Nat × Nat) :=
  (match (litCI cs i (S ":")).bind (fun j => digitsExact cs j 2) with
   | some (v, j) => [(some v, j)]
   | none => []) ++ [(none, i)]

/-- Optional alternation capture, e.g. `(am|pm)?`: present first, then absent. -/
def apOptCands (cs : Str) (i : Nat) (alts : List Str) : List (Option Str × Nat) :=
  (altCands cs i alts).map (fun p => (some p.1, p.2)) ++ [(none, i)]

/-- `(?:at\s+)?`: candidate next-positions. -/
def atOptCands (cs : Str) (i : Nat) : List Nat :=
  (match litCI cs i (S "at") with
   | some j => plusCands cs j
   | none => []) ++ [i]

/-- Captured clock-time groups `(\d{1,2})(?::(\d{2}))?…(am|pm|…)?`. -/
structure TimeGrp where
  hh : Nat
  mm : Option Nat
  ap : Option Str
deriving DecidableEq, Repr

/-- `(\d{1,2})(?::(\d{2}))?\s*(APALTS)?\b` starting at `j` (the trailing `\b`
is the pattern-final one). -/
def timeTailB (cs : Str) (j : Nat) (apAlts : List Str) : Option (TimeGrp × Nat) :=
  firstSome (digCands cs j 2) fun (hh, j1) =>
  firstSome (colonOptCands cs j1) fun (mm, j2) =>
  firstSome (starCands cs j2) fun j3 =>
  firstSome (apOptCands cs j3 apAlts) fun (ap, j4) =>
  if bdyAt cs j4 then some (⟨hh, mm, ap⟩, j4) else none

/-- Run an anchored matcher at every position, leftmost first; the result is
tagged with the starting index. -/
def searchPat {α} (f : Str → Nat → Option α) (cs : Str) : Option (Nat × α) :=
  firstSome (List.range (cs.length + 1)) (fun i => (f cs i).map (fun r => (i, r)))

def unitAlts : List Str :=
  [S "minutes", S "minute", S "mins", S "min", S "m",
   S "hours", S "hour", S "hrs", S "hr", S "h",
   S "days", S "day", S "d"]

def wdFullAlts : List Str :=
  [S "sunday", S "monday", S "tuesday", S "wednesday", S "thursday",
   S "friday", S "saturday"]

def wdShortAlts : List Str :=
  [S "sun", S "mon", S "tue", S "wed", S "thu", S "fri", S "sat",
   S "sunday", S "monday", S "tuesday", S "wednesday", S "thursday",
   S "friday", S "saturday"]

def monthAlts : List Str :=
  [S "january", S "february", S "march", S "april", S "may", S "june",
   S "july", S "august", S "september", S "october", S "november", S "december"]

def periodAlts : List Str :=
  [S "morning", S "afternoon", S "evening", S "night"]

def lookupN (m : List (Str × Nat)) (k : Str) : Nat :=
  ((m.find? (fun p => p.1 == k)).map (·.2)).getD 0

/-- `wd_map` of the `next <weekday>` and weekday-with-time recognizers. -/
def wdMap : List (Str × Nat) :=
  [(S "sun", 6), (S "mon", 0), (S "tue", 1), (S "wed", 2), (S "thu", 3),
   (S "fri", 4), (S "sat", 5),
   (S "sunday", 6), (S "monday", 0), (S "tuesday", 1), (S "wednesday", 2),
   (S "thursday", 3), (S "friday", 4), (S "saturday", 5)]

/-- `month_map` of the month-name recognizers. -/
def monthMap : List (Str × Nat) :=
  [(S "january", 1), (S "february", 2), (S "march", 3), (S "april", 4),
   (S "may", 5), (S "june", 6), (S "july", 7), (S "august", 8),
   (S "september", 9), (S "october", 10), (S "november", 11), (S "december", 12)]

/-! ### The nine anchored pattern matchers (source order, main.py 328-449) -/

/-- `\bin\s*(\d{1,3})\s*(minutes?|mins?|m|hours?|hrs?|h|days?|d)\b`. -/
def p1At (cs : Str) (i : Nat) : Option (Nat × Str × Nat) :=
  if !bdyAt cs i then none else
  (litCI cs i (S "in")).bind fun j =>
  firstSome (starCands cs j) fun j1 =>
  firstSome (digCands cs j1 3) fun (num, j2) =>
  firstSome (starCands cs j2) fun j3 =>
  firstSome (altCands cs j3 unitAlts) fun (u, j4) =>
  if bdyAt cs j4 then some (num, u, j4) else none

/-- `\btomorrow(?:\s+(?:at\s+)?(\d{1,2})(?::(\d{2}))?\s*(am|pm)?|\s+(morning|afternoon|evening|night))?\b`. -/
def p2At (cs : Str) (i : Nat) : Option (Option (TimeGrp ⊕ Str) × Nat) :=
  if !bdyAt cs i then none else
  (litCI cs i (S "tomorrow")).bind fun j =>
  match firstSome (plusCands cs j) fun j1 =>
        firstSome (atOptCands cs j1) fun j2 =>
        timeTailB cs j2 [S "am", S "pm"] with
  | some (t, j4) => some (some (.inl t), j4)
  | none =>
    match firstSome (plusCands cs j) fun j1 =>
          firstSome (altCands cs j1 periodAlts) fun (p, j2) =>
          if bdyAt cs j2 then some (p, j2) else none with
    | some (p, j2) => some (some (.inr p), j2)
    | none => if bdyAt cs j then some (none, j) else none

/-- `\btoday\s+at\s+(\d{1,2})(?::(\d{2}))?\s*(am|pm)?\b`. -/
def p3At (cs : Str) (i : Nat) : Option (TimeGrp × Nat) :=
  if !bdyAt cs i then none else
  (litCI cs i (S "today")).bind fun j =>
  firstSome (plusCands cs j) fun j1 =>
  (litCI cs j1 (S "at")).bind fun j2 =>
  firstSome (plusCands cs j2) fun j3 =>
  timeTailB cs j3 [S "am", S "pm"]

/-- `\bnext\s+(sunday|…|saturday)(?:\s+at\s+(\d{1,2})(?::(\d{2}))?\s*(am|pm)?)?\b`. -/
def p4At (cs : Str) (i : Nat) : Option (Str × Option TimeGrp × Nat) :=
  if !bdyAt cs i then none else
  (litCI cs i (S "next")).bind fun j =>
  firstSome (plusCands cs j) fun j1 =>
  firstSome (altCands cs j1 wdFullAlts) fun (wd, j2) =>
  match firstSome (plusCands cs j2) fun j3 =>
        (litCI cs j3 (S "at")).bind fun j4 =>
        firstSome (plusCands cs j4) fun j5 =>
        timeTailB cs j5 [S "am", S "pm"] with
  | some (t, j6) => some (wd, some t, j6)
  | none => if bdyAt cs j2 then some (wd, none, j2) else none

/-- `\b(sun|mon|…|saturday)(?:day)?\s+(\d{1,2})(?::(\d{2}))?\s*(am|pm|a|p)?\b`. -/
def p5At (cs : Str) (i : Nat) : Option (Str × TimeGrp × Nat) :=
  if !bdyAt cs i then none else
  firstSome (altCands cs i wdShortAlts) fun (wd, j) =>
  firstSome ((match litCI cs j (S "day") with
              | some j' => [j']
              | none => []) ++ [j]) fun j1 =>
  firstSome (plusCands cs j1) fun j2 =>
  (timeTailB cs j2 [S "am", S "pm", S "a", S "p"]).map fun (t, j3) => (wd, t, j3)

/-- The month/day tail shared by the `on <Month> <Day>` and bare
`<Month> <Day>` patterns:
`(january|…)\s+(\d{1,2})(?:st|nd|rd|th)?(?:\s+(?:at\s+)?(\d{1,2})(?::(\d{2}))?\s*(am|pm|a|p)?)?\b`. -/
def monthTail (cs : Str) (i : Nat) : Option (Str × Nat × Option TimeGrp × Nat) :=
  firstSome (altCands cs i monthAlts) fun (mon, j) =>
  firstSome (plusCands cs j) fun j1 =>
  firstSome (digCands cs j1 2) fun (da, j2) =>
  firstSome ((altCands cs j2 [S "st", S "nd", S "rd", S "th"]).map (·.2) ++ [j2]) fun j3 =>
  match firstSome (plusCands cs j3) fun j4 =>
        firstSome (atOptCands cs j4) fun j5 =>
        timeTailB cs j5 [S "am", S "pm", S "a", S "p"] with
  | some (t, j6) => some (mon, da, some t, j6)
  | none => if bdyAt cs j3 then some (mon, da, none, j3) else none

/-- `\bon\s+(january|…)\s+(\d{1,2})…` (main.py 395). -/
def p6At (cs : Str) (i : Nat) : Option (Str × Nat × Option TimeGrp × Nat) :=
  if !bdyAt cs i then none else
  (litCI cs i (S "on")).bind fun j =>
  firstSome (plusCands cs j) fun j1 =>
  monthTail cs j1

/-- Bare `\b(january|…)\s+(\d{1,2})…` (main.py 416). -/
def p7At (cs : Str) (i : Nat) : Option (Str × Nat × Option TimeGrp × Nat) :=
  if !bdyAt cs i then none else
  monthTail cs i

/-- `\bon\s+(\d{4})-(\d{1,2})-(\d{1,2})(?:\s+(\d{1,2})(?::(\d{2}))?)?\b`. -/
def p8At (cs : Str) (i : Nat) :
    Option (Nat × Nat × Nat × Option (Nat × Option Nat) × Nat) :=
  if !bdyAt cs i then none else
  (litCI cs i (S "on")).bind fun j =>
  firstSome (plusCands cs j) fun j1 =>
  (digitsExact cs j1 4).bind fun (y, j2) =>
  (litCI cs j2 (S "-")).bind fun j3 =>
  firstSome (digCands cs j3 2) fun (mo, j4) =>
  (litCI cs j4 (S "-")).bind fun j5 =>
  firstSome (digCands cs j5 2) fun (da, j6) =>
  match firstSome (plusCands cs j6) fun j7 =>
        firstSome (digCands cs j7 2) fun (hh, j8) =>
        firstSome (colonOptCands cs j8) fun (mm, j9) =>
        if bdyAt cs j9 then some ((hh, mm), j9) else none with
  | some (t, j9) => some (y, mo, da, some t, j9)
  | none => if bdyAt cs j6 then some (y, mo, da, none, j6) else none

/-- `\bat\s+(\d{1,2})(?::(\d{2}))?\s*(am|pm)?\b`. -/
def p9At (cs : Str) (i : Nat) : Option (TimeGrp × Nat) :=
  if !bdyAt cs i then none else
  (litCI cs i (S "at")).bind fun j =>
  firstSome (plusCands cs j) fun j1 =>
  timeTailB cs j1 [S "am", S "pm"]

/-! ## `_extract_due` (main.py 313-452) -/

/-- The am/pm hour adjustment of `set_time` (main.py 319-325): only the exact
suffixes "pm"/"am" adjust (the single letters "p"/"a" pass through). -/
def setTimeHour (hh : Nat) (ap : Option Str) : Nat :=
  match ap with
  | some a =>
    let al := lowStr a
    let H1 := if al = S "pm" ∧ hh < 12 then hh + 12 else hh
    if al = S "am" ∧ H1 = 12 then 0 else H1
  | none => hh

/-- The local helper `set_time(d, hh, mm, ap)` of `_extract_due`: am/pm
adjustment then `d.replace(hour=H, minute=M, second=0, microsecond=0)`. -/
def set_time (d : PyDateTime) (hh mm : Nat) (ap : Option Str) : Except PyErr PyDateTime :=
  pyReplaceTime d (setTimeHour hh ap) mm

/-- The `in X minutes/hours/days` branch body (main.py 330-335). -/
def r1compute (now : PyDateTime) (num : Nat) (unit : Str) : Except PyErr PyDateTime :=
  if pyStartsWith unit (S "min") ∨ unit = S "m" then addSecs now (num * 60)
  else if pyStartsWith unit (S "hour") ∨ pyStartsWith unit (S "hr") ∨ unit = S "h" then
    addSecs now (num * 3600)
  else if pyStartsWith unit (S "day") ∨ unit = S "d" then addDays now num
  else .ok now

/-- The `tomorrow …` branch body (main.py 340-351). -/
def r2compute (now : PyDateTime) (g : Option (TimeGrp ⊕ Str)) : Except PyErr PyDateTime := do
  let d ← addDays now 1
  match g with
  | some (.inl t) => set_time d t.hh (t.mm.getD 0) t.ap
  | some (.inr p) =>
    if p = S "morning" then set_time d 9 0 none
    else if p = S "afternoon" then set_time d 14 0 none
    else if p = S "evening" then set_time d 18 0 none
    else if p = S "night" then set_time d 21 0 none
    else .ok d
  | none => set_time d 9 0 none

/-- The `next <weekday>` branch body (main.py 362-368). -/
def r4compute (now : PyDateTime) (wd : Str) (t : Option TimeGrp) : Except PyErr PyDateTime := do
  let target := lookupN wdMap wd
  let delta0 := (target + 7 - pyWeekday now) % 7
  let delta := if delta0 = 0 then 7 else delta0
  let d ← addDays now delta
  match t with
  | some tg => set_time d tg.hh (tg.mm.getD 0) tg.ap
  | none => set_time d 9 0 none

/-- The am/pm adjustment the weekday-with-time branch applies before
comparing against `now` (main.py 382-385); unlike `set_time` it also honours
the single letters "p"/"a". -/
def r5AdjHour (t : TimeGrp) : Nat :=
  let th0 := t.hh
  let th1 :=
    if (t.ap.map lowStr = some (S "pm") ∨ t.ap.map lowStr = some (S "p")) ∧ th0 < 12 then
      th0 + 12
    else th0
  if (t.ap.map lowStr = some (S "am") ∨ t.ap.map lowStr = some (S "a")) ∧ th1 = 12 then
    0
  else th1

/-- The bare weekday-with-time branch body (main.py 374-392): when the named
weekday is today's, the hour is am/pm-adjusted and compared with `now` to
decide between today and next week. -/
def r5compute (now : PyDateTime) (wd : Str) (t : TimeGrp) : Except PyErr PyDateTime := do
  let target := lookupN wdMap wd
  let delta0 := (target + 7 - pyWeekday now) % 7
  let delta :=
    if delta0 = 0 then
      if r5AdjHour t < now.hour ∨ (r5AdjHour t = now.hour ∧ t.mm.getD 0 ≤ now.minute) then 7
      else delta0
    else delta0
  let d ← addDays now delta
  set_time d t.hh (t.mm.getD 0) t.ap

/-- Today at midnight: `now.replace(hour=0, minute=0, second=0, microsecond=0)`
(main.py 406). -/
def nowMidnight (now : PyDateTime) : PyDateTime :=
  { now with hour := 0, minute := 0, second := 0 }

/-- The month-name branch body, shared by the `on <Month> <Day>` and bare
`<Month> <Day>` recognizers (main.py 397-413 and 418-434): builds the date at
09:00 in the current year, rolls to next year when it lies before today's
midnight, then applies the optional time. -/
def monthDayCompute (now : PyDateTime) (mon : Str) (da : Nat) (t : Option TimeGrp) :
    Except PyErr PyDateTime := do
  let mo := lookupN monthMap mon
  let cy := now.year
  let d ← pyDatetime cy mo da 9 0 0 none
  let d ← if wallLt d (nowMidnight now) then pyReplaceYear d (cy + 1) else pure d
  match t with
  | some tg => set_time d tg.hh (tg.mm.getD 0) tg.ap
  | none => pure d

/-- The `on YYYY-MM-DD [HH[:MM]]` branch body (main.py 439-443). -/
def r8compute (y mo da : Nat) (t : Option (Nat × Option Nat)) : Except PyErr PyDateTime := do
  let d ← pyDatetime y mo da 9 0 0 none
  match t with
  | some (hh, mm) => pyReplaceTime d hh (mm.getD 0)
  | none => pure d

/-- A recognizer: scan the working text; on a match return the matched span
(`m.group(0)`) and the branch body's result. -/
def Recog : Type := Str → Option (Str × Except PyErr PyDateTime)

def rec1 (now : PyDateTime) : Recog := fun text =>
  (searchPat p1At text).map fun (i, num, u, j) =>
    (sliceS text i j, r1compute now num u)

def rec2 (now : PyDateTime) : Recog := fun text =>
  (searchPat p2At text).map fun (i, g, j) =>
    (sliceS text i j, r2compute now g)

def rec3 (now : PyDateTime) : Recog := fun text =>
  (searchPat p3At text).map fun (i, t, j) =>
    (sliceS text i j, set_time now t.hh (t.mm.getD 0) t.ap)

def rec4 (now : PyDateTime) : Recog := fun text =>
  (searchPat p4At text).map fun (i, wd, t, j) =>
    (sliceS text i j, r4compute now wd t)

def rec5 (now : PyDateTime) : Recog := fun text =>
  (searchPat p5At text).map fun (i, wd, t, j) =>
    (sliceS text i j, r5compute now wd t)

def rec6 (now : PyDateTime) : Recog := fun text =>
  (searchPat p6At text).map fun (i, mon, da, t, j) =>
    (sliceS text i j, monthDayCompute now mon da t)

def rec7 (now : PyDateTime) : Recog := fun text =>
  (searchPat p7At text).map fun (i, mon, da, t, j) =>
    (sliceS text i j, monthDayCompute now mon da t)

def rec8 : Recog := fun text =>
  (searchPat p8At text).map fun (i, y, mo, da, t, j) =>
    (sliceS text i j, r8compute y mo da t)

def rec9 (now : PyDateTime) : Recog := fun text =>
  (searchPat p9At text).map fun (i, t, j) =>
    (sliceS text i j, set_time now t.hh (t.mm.getD 0) t.ap)

/-- The ordered recognizer cascade of `_extract_due`. -/
def recogs (now : PyDateTime) : List Recog :=
  [rec1 now, rec2 now, rec3 now, rec4 now, rec5 now,
   rec6 now, rec7 now, rec8, rec9 now]

/-- One source block `m = re.search(…); if m and not due: …;
text = text.replace(m.group(0), " ")`: when `due` is already set or there is
no match, the state is unchanged; otherwise the branch body runs (possibly
raising) and every occurrence of the matched span is replaced by a space. -/
def runRec (st : Str × Option PyDateTime) (r : Recog) :
    Except PyErr (Str × Option PyDateTime) :=
  match st.2 with
  | some _ => .ok st
  | none =>
    match r st.1 with
    | none => .ok st
    | some (g0, dE) => dE.map fun d => (pyReplace st.1 g0 spc, some d)

def runRecs (rs : List Recog) (st : Str × Option PyDateTime) :
    Except PyErr (Str × Option PyDateTime) :=
  rs.foldlM runRec st

/-- `_extract_due(s)` (main.py 313-452) with the `datetime.now()` reading
passed explicitly.  Returns the cleaned text and the extracted due as a naive
ISO string (`due.isoformat()`), or the ValueError/OverflowError CPython would
raise. -/
def extract_due (now : PyDateTime) (s : Str) : Except PyErr (Str × Option Str) := do
  let t0 := spc ++ s ++ spc
  let res ← runRecs (recogs now) (t0, none)
  pure (collapse res.1, res.2.map isoformat)

/-! ## `_strip_prefixes` and `_parse_input` (main.py 306-311, 454-460) -/

/-- `^remind\s+me\s+(to|that)\s*` anchored at 0; returns the match end. -/
def pre1End (s : Str) : Option Nat :=
  (litCI s 0 (S "remind")).bind fun j =>
  firstSome (plusCands s j) fun j1 =>
  (litCI s j1 (S "me")).bind fun j2 =>
  firstSome (plusCands s j2) fun j3 =>
  firstSome (altCands s j3 [S "to", S "that"]) fun (_, j4) =>
  firstSome (starCands s j4) fun j5 => some j5

/-- `^remember\s+(that)?\s*` anchored at 0. -/
def pre2End (s : Str) : Option Nat :=
  (litCI s 0 (S "remember")).bind fun j =>
  firstSome (plusCands s j) fun j1 =>
  firstSome ((match litCI s j1 (S "that") with
              | some j2 => [j2]
              | none => []) ++ [j1]) fun j2 =>
  firstSome (starCands s j2) fun j3 => some j3

/-- `^note\s*:\s*` anchored at 0. -/
def pre3End (s : Str) : Option Nat :=
  (litCI s 0 (S "note")).bind fun j =>
  firstSome (starCands s j) fun j1 =>
  (litCI s j1 (S ":")).bind fun j2 =>
  firstSome (starCands s j2) fun j3 => some j3

def subAnchored (f : Str → Option Nat) (s : Str) : Str :=
  match f s with
  | some j => s.drop j
  | none => s

/-- `_strip_prefixes(s)` (main.py 306-311): the three anchored substitutions
in source order, then `str.strip()`. -/
def strip_prefixes (s : Str) : Str :=
  pyStrip (subAnchored pre3End (subAnchored pre2End (subAnchored pre1End s)))

/-- The reminder cue set of `_parse_input` (main.py 456). -/
def cueList : List Str :=
  [S "remind me", S "tomorrow", S "today", S "next ", S " at ", S " in "]

def looksReminder (lowered : Str) : Bool :=
  cueList.any (fun k => strIn k lowered)

structure ParseResult where
  kind : Str
  text : Str
  due : Option Str
deriving DecidableEq, Repr

/-- `_parse_input(raw)` (main.py 454-460): cue detection on the
whitespace-stripped raw text, prefix stripping, extraction, and the
task/memory decision. -/
def parse_input (now : PyDateTime) (raw : Str) : Except PyErr ParseResult := do
  let (cleaned, due) ← extract_due now (strip_prefixes (pyStrip raw))
  pure ⟨if looksReminder (lowStr (pyStrip raw)) ∨ due.isSome then S "task" else S "memory",
        cleaned, due⟩

/-! ## `_normalize_due_to_utc` (storage.py 52-69)

`datetime.fromisoformat` is modelled for full `YYYY-MM-DD(T| )HH:MM:SS`
date-times, optionally suffixed `±HH:MM` or `Z` (Python ≥ 3.11); the other
ISO forms CPython accepts do not occur in the sources' own output and parse
as failures (which the normalizer passes through unchanged, so no claim is
affected).  `astimezone(timezone.utc)` raises OverflowError when the UTC
result leaves years 1..9999; the month/day part of the validity check below
never fails for a computed civil date. -/

def dig2 (a b : Char) : Option Nat :=
  if isDigitCh a ∧ isDigitCh b then some (digVal a * 10 + digVal b) else none

/-- Offset suffix parser: `±HH:MM`, `Z`, or nothing (naive). -/
def parseOffPart : Str → Option (Option Int)
  | [] => some none
  | ['Z'] => some (some 0)
  | [sg, h1, h2, ':', m1, m2] =>
    if sg = '+' ∨ sg = '-' then
      (dig2 h1 h2).bind fun hh =>
      (dig2 m1 m2).bind fun mm =>
      if hh ≤ 23 ∧ mm ≤ 59 then
        some (some ((if sg = '-' then -1 else 1) * (hh * 60 + mm : Nat)))
      else none
    else none
  | _ => none

/-- Model of `datetime.fromisoformat` on the formats above. -/
def fromisoformat : Str → Option PyDateTime
  | y1 :: y2 :: y3 :: y4 :: sp1 :: m1 :: m2 :: sp2 :: d1 :: d2 :: sep :: h1 :: h2 ::
      c1 :: i1 :: i2 :: c2 :: s1 :: s2 :: rest =>
    if sp1 = '-' ∧ sp2 = '-' ∧ c1 = ':' ∧ c2 = ':' ∧
       isDigitCh y1 ∧ isDigitCh y2 ∧ isDigitCh y3 ∧ isDigitCh y4 ∧
       ¬isDigitCh sep ∧ sep ≠ '-' then
      (dig2 m1 m2).bind fun mo =>
      (dig2 d1 d2).bind fun da =>
      (dig2 h1 h2).bind fun h =>
      (dig2 i1 i2).bind fun mi =>
      (dig2 s1 s2).bind fun s =>
      (parseOffPart rest).bind fun off =>
      let y := digVal y1 * 1000 + digVal y2 * 100 + digVal y3 * 10 + digVal y4
      match pyDatetime y mo da h mi s off with
      | .ok d => some d
      | .error _ => none
    else none
  | _ => none

/-- `dt.astimezone(timezone.utc)` for an aware value with offset `off`
minutes: identity on a zero offset, otherwise shift the wall clock by
`-off` minutes, raising OverflowError outside years 1..9999. -/
def astimezoneUTC (d : PyDateTime) (off : Int) : Except PyErr PyDateTime :=
  if off = 0 then .ok { d with tz := some 0 }
  else
    (addSecs d (-off * 60)).map fun d1 => { d1 with tz := some 0 }

/-- `_normalize_due_to_utc(due)` (storage.py 52-69), with the process-local
timezone offset (minutes) passed explicitly.  Only `fromisoformat` is inside
the `try`, so the `astimezone` OverflowError propagates to the caller. -/
def normalize_due_to_utc (localOff : Int) (due : Option Str) :
    Except PyErr (Option Str) := do
  match due with
  | none => pure none
  | some s =>
    if s.isEmpty then pure none
    else
      match fromisoformat s with
      | none => pure (some s)
      | some dt =>
        let dt := if dt.tz.isNone then { dt with tz := some localOff } else dt
        let u ← astimezoneUTC dt (dt.tz.getD 0)
        pure (some (isoformat u))

/-! ## Task records and the recurrence expander (storage.py) -/

/-- A task id: an integer row id, or (after expansion) a synthetic string id. -/
inductive Ident where
  | num (n : Int)
  | str (s : Str)
deriving DecidableEq, Repr

def natDigitsAux : Nat → Nat → Str
  | 0, _ => []
  | fuel + 1, n => if n = 0 then [] else natDigitsAux fuel (n / 10) ++ [digCh (n % 10)]

/-- Python `str(n)` for integers. -/
def intRender (n : Int) : Str :=
  if n = 0 then ['0']
  else (if n < 0 then ['-'] else []) ++ natDigitsAux n.natAbs n.natAbs

def identRender : Ident → Str
  | .num n => intRender n
  | .str s => s

/-- A row of the `tasks` table, plus the two fields the expander adds to
occurrence copies (absent on stored rows, modelled by their defaults). -/
structure TaskRec where
  id : Ident
  title : Str
  due : Option Str
  done : Bool
  created : Str
  tags : Str
  notified_at : Option Str
  rrule : Option Str
  is_recurring_instance : Bool := false
  parent_task_id : Option Ident := none
deriving DecidableEq, Repr

/-- `dateutil.parser.parse`, modelled on the same ISO subset as
`fromisoformat` (the due strings the sources store are exactly these);
`none` models the parse raising. -/
def parse_date (s : Str) : Option PyDateTime := fromisoformat s

/-- The fragment of the RRULE grammar modelled for `dateutil.rrule.rrulestr`:
`FREQ=DAILY|WEEKLY` with optional `INTERVAL=n` (n ≥ 1) and a required
`COUNT=n`.  The claims under verification use bounded rules of this shape or
the evaluation-failure branch, so rules outside the fragment are mapped to
the failure (`none`) like genuinely malformed ones. -/
structure RRuleSpec where
  freqDays : Nat
  interval : Nat
  count : Nat
deriving DecidableEq, Repr

def splitOnCh (sep : Char) : Str → List Str
  | [] => [[]]
  | c :: cs =>
    let r := splitOnCh sep cs
    if c = sep then [] :: r
    else match r with
         | [] => [[c]]
         | w :: ws => (c :: w) :: ws

def parseNatAll (s : Str) : Option Nat :=
  if s.isEmpty ∨ s.any (fun c => !isDigitCh c) then none
  else some (s.foldl (fun a c => a * 10 + digVal c) 0)

def splitKV (t : Str) : Option (Str × Str) :=
  match t.findIdx? (· = '=') with
  | some i => some (t.take i, t.drop (i + 1))
  | none => none

def rrulestr (r : Str) : Option RRuleSpec := do
  let parts := splitOnCh ';' r
  let kvs ← parts.mapM splitKV
  let freqS ← (kvs.find? (fun p => p.1 == S "FREQ")).map (·.2)
  let freqDays ←
    if freqS == S "DAILY" then some 1
    else if freqS == S "WEEKLY" then some 7
    else none
  let interval ←
    match kvs.find? (fun p => p.1 == S "INTERVAL") with
    | some (_, v) => (parseNatAll v).bind (fun n => if 1 ≤ n then some n else none)
    | none => some 1
  let count ← (kvs.find? (fun p => p.1 == S "COUNT")).bind (fun p => parseNatAll p.2)
  if kvs.all (fun p => p.1 == S "FREQ" ∨ p.1 == S "INTERVAL" ∨ p.1 == S "COUNT") then
    some ⟨freqDays, interval, count⟩
  else none

/-- The recurring pattern `if x.tzinfo is None: x = x.replace(tzinfo=timezone.utc)`
(storage.py 175-176, 184-185, 190-191, 197-198, 250-251, 257-258, 274-275, 287-288). -/
def awareUTC (d : PyDateTime) : PyDateTime :=
  if d.tz.isNone then { d with tz := some 0 } else d

/-- The `k`-th occurrence the rule evaluator yields from `dtstart`
(the sequence is strictly increasing by `interval * freqDays` days). -/
def occAt (ru : RRuleSpec) (dtstart : PyDateTime) (k : Nat) : Except PyErr PyDateTime :=
  addDays dtstart (k * ru.interval * ru.freqDays)

/-- The occurrence copy built at storage.py 204-210. -/
def mkOccurrence (task : TaskRec) (occ : PyDateTime) : TaskRec :=
  { task with
    due := some (isoformat occ),
    id := .str (identRender task.id ++ S "_r_" ++ strftimeCompact occ),
    is_recurring_instance := true,
    parent_task_id := some task.id }

/-- `relativedelta(months := n)` addition: shift the month, clamp the day to
the target month's length; ValueError outside years 1..9999. -/
def addMonths (d : PyDateTime) (n : Nat) : Except PyErr PyDateTime :=
  let m0 := d.month - 1 + n
  let y := d.year + m0 / 12
  let m := m0 % 12 + 1
  if 1 ≤ y ∧ y ≤ 9999 then
    .ok { d with year := y, month := m, day := min d.day (daysInMonth y m) }
  else .error .valueError

/-- The `for occurrence in rrule_obj` loop of storage.py 195-210: the
generator is consumed lazily, stops at the first occurrence past `endD`
(`break`), and collects the occurrences at or after `startD`. -/
def occLoop (task : TaskRec) (ru : RRuleSpec) (dtstart startD endD : PyDateTime) :
    (k rem : Nat) → Except PyErr (List TaskRec)
  | _, 0 => .ok []
  | k, rem + 1 => do
    let occ0 ← occAt ru dtstart k
    let occ := awareUTC occ0
    if absLt endD occ then pure []
    else do
      let rest ← occLoop task ru dtstart startD endD (k + 1) rem
      if absLe startD occ then pure (mkOccurrence task occ :: rest)
      else pure rest

/-- The body of the `try` block of `_expand_recurring_task`
(storage.py 170-212); any error is the exception the `except` catches. -/
def expandCore (task : TaskRec) (start_date end_date : Option PyDateTime)
    (now : PyDateTime) : Except PyErr (List TaskRec) := do
  let due_dt0 ←
    match parse_date (task.due.getD []) with
    | some d => pure d
    | none => Except.error .valueError
  let due_dt := awareUTC due_dt0
  let ru ←
    match rrulestr (task.rrule.getD []) with
    | some r => pure r
    | none => Except.error .valueError
  let startD :=
    match start_date with
    | none => now
    | some sd => awareUTC sd
  let endD ←
    match end_date with
    | none => addMonths startD 6
    | some ed => pure (awareUTC ed)
  occLoop task ru due_dt startD endD 0 ru.count

/-- `_expand_recurring_task(task, start_date, end_date)` (storage.py 165-217),
with the `datetime.now(timezone.utc)` reading passed as `now`.  The guard is
Python truthiness (`None` or empty string both fail it); an error anywhere in
the `try` body falls back to `[task]`. -/
def expand_recurring_task (task : TaskRec) (start_date end_date : Option PyDateTime)
    (now : PyDateTime) : List TaskRec :=
  if ((match task.rrule with | none => true | some r => r.isEmpty) ||
      (match task.due with | none => true | some d => d.isEmpty)) then [task]
  else
    match expandCore task start_date end_date now with
    | .ok occs => occs
    | .error _ => [task]

/-! ## `list_tasks` post-SQL processing (storage.py 241-301)

The SQL query itself is plumbing; its result (the task rows, already ordered
and truncated by the query) is the input here. -/

/-- `int(str(x['id']).split('_')[0])`, the numeric parent id recovered from a
(possibly synthetic) id; stored and synthetic ids always parse, so the
unreachable failure is mapped to 0. -/
def parentIdNum (i : Ident) : Int :=
  let first := (splitOnCh '_' (identRender i)).headD []
  match first with
  | '-' :: ds => -(((parseNatAll ds).getD 0 : Nat) : Int)
  | ds => ((parseNatAll ds).getD 0 : Nat)

/-- Python string `<` (lexicographic on code points). -/
def strLt : Str → Str → Bool
  | [], [] => false
  | [], _ :: _ => true
  | _ :: _, [] => false
  | a :: as_, b :: bs => if a.toNat < b.toNat then true
                         else if a.toNat = b.toNat then strLt as_ bs else false

/-- `x.get('due') or '9999'`. -/
def dueKey (t : TaskRec) : Str :=
  match t.due with
  | some d => if d.isEmpty then S "9999" else d
  | none => S "9999"

/-- `key=lambda x: (x.get('due') or '9999', -int(str(x['id']).split('_')[0]))`
as a ≤ on tasks. -/
def openSortLe (a b : TaskRec) : Bool :=
  strLt (dueKey a) (dueKey b) ||
  (dueKey a == dueKey b && decide (-(parentIdNum a.id) ≤ -(parentIdNum b.id)))

/-- `key=lambda x: -int(str(x['id']).split('_')[0])` as a ≤ on tasks. -/
def idSortLe (a b : TaskRec) : Bool := decide (-(parentIdNum a.id) ≤ -(parentIdNum b.id))

/-- Stable insertion sort; `list.sort(key=…)` (Timsort) is also stable, so the
results agree. -/
def stableInsert (le : TaskRec → TaskRec → Bool) (x : TaskRec) :
    List TaskRec → List TaskRec
  | [] => [x]
  | y :: ys => if le y x then y :: stableInsert le x ys else x :: y :: ys

/-- Insert the elements left to right: `stableInsert` places each after all
already-placed elements ≤ it, so original order is kept among equal keys. -/
def stableSort (le : TaskRec → TaskRec → Bool) (l : List TaskRec) : List TaskRec :=
  l.foldl (fun acc x => stableInsert le x acc) []

/-- The instance/date filter applied to each expanded instance
(storage.py 269-279) and to non-recurring tasks (283-292); the `parse_date`
of a present due is not inside any `try`, so its failure raises. -/
def dueInWindow (start_date end_date : Option PyDateTime) (due : Option Str) :
    Except PyErr Bool := do
  let instDue ←
    match due with
    | some d =>
      if d.isEmpty then pure none
      else match parse_date d with
           | some x => pure (some x)
           | none => Except.error .valueError
    | none => pure none
  match instDue with
  | none => pure true
  | some x0 =>
    let x := awareUTC x0
    if (match start_date with | some sd => absLt x sd | none => false) then pure false
    else if (match end_date with | some ed => absLt ed x | none => false) then pure false
    else pure true

/-- Lines 262-301 of `list_tasks`: expansion of recurring rows, date
filtering, the final sort and the `[:limit]` truncation.  `startS`/`endS` are
the raw query strings (the branch conditions test their truthiness),
`start_date`/`end_date` their parses (storage.py 245-260: a failed parse
leaves `None`). -/
def listTasksPost (tasks : List TaskRec) (open_only : Bool) (limit : Nat)
    (startS endS : Option Str) (now : PyDateTime) : Except PyErr (List TaskRec) := do
  let start_date :=
    match startS with
    | some s => match parse_date s with
                | some d => some (awareUTC d)
                | none => none
    | none => none
  let end_date :=
    match endS with
    | some s => match parse_date s with
                | some d => some (awareUTC d)
                | none => none
    | none => none
  let anyWindow := start_date.isSome || end_date.isSome
  let stringyWindow :=
    (match startS with | some s => !s.isEmpty | none => false) ||
    (match endS with | some s => !s.isEmpty | none => false)
  let expanded ← tasks.foldlM (fun acc task => do
    if (match task.rrule with | some r => !r.isEmpty | none => false) then
      let instances := expand_recurring_task task start_date end_date now
      instances.foldlM (fun acc2 inst => do
        if anyWindow then
          let keep ← dueInWindow start_date end_date inst.due
          pure (if keep then acc2 ++ [inst] else acc2)
        else pure (acc2 ++ [inst])) acc
    else
      if stringyWindow then
        let keep ← dueInWindow start_date end_date task.due
        pure (if keep then acc ++ [task] else acc)
      else pure (acc ++ [task])) []
  let sorted := if open_only then stableSort openSortLe expanded else stableSort idSortLe expanded
  pure (sorted.take limit)

/-! ## Task creation and update (storage.py `add_task`/`update_task`,
main.py `post_task`/`patch_task`) -/

/-- Matches of `@\w+` (or `#\w+`): `re.findall`, leftmost and
non-overlapping; fueled for structural recursion. -/
def findAllTagsAux (pre : Char) : Nat → Str → List Str
  | _, [] => []
  | 0, _ => []
  | fuel + 1, c :: cs =>
    if (c == pre) && (match cs with | d :: _ => isWordCh d | [] => false) then
      (c :: cs.takeWhile isWordCh) :: findAllTagsAux pre fuel (cs.dropWhile isWordCh)
    else findAllTagsAux pre fuel cs

def findAllTags (pre : Char) (s : Str) : List Str := findAllTagsAux pre s.length s

/-- First-occurrence de-duplication (`dict.fromkeys`); fueled for structural
recursion. -/
def dedupAux : Nat → List Str → List Str
  | _, [] => []
  | 0, l => l
  | fuel + 1, x :: xs => x :: dedupAux fuel (xs.filter (fun y => y ≠ x))

def dedup (l : List Str) : List Str := dedupAux l.length l

/-- `_tags_from(text)` (storage.py 71-76). -/
def tags_from (text : Str) : Str :=
  joinSp (dedup (findAllTags '@' text ++ findAllTags '#' text))

/-- The task store: the `tasks` table plus the AUTOINCREMENT counter. -/
structure Store where
  tasks : List TaskRec
  nextId : Int
deriving Repr

/-- `add_task(title, due, rrule=None)` (storage.py 90-102), with the
`datetime.utcnow().isoformat()` reading passed as `createdS`. -/
def add_task (localOff : Int) (createdS : Str) (st : Store) (title : Str)
    (due : Option Str) (rrule : Option Str) : Except PyErr (Store × TaskRec) := do
  let due_norm ← normalize_due_to_utc localOff due
  let row : TaskRec :=
    { id := .num st.nextId, title := title, due := due_norm, done := false,
      created := createdS, tags := tags_from title, notified_at := none, rrule := rrule }
  pure ({ tasks := st.tasks ++ [row], nextId := st.nextId + 1 }, row)

/-- The request body `TaskIn` (schemas.py): `rrule` and `priority` are
accepted by the schema. -/
structure TaskIn where
  title : Str
  due : Option Str
  rrule : Option Str
  priority : Option Str
deriving Repr

/-- `post_task` (main.py 145-156): extract a due from the title when none was
given; `storage.add_task` is called without the request's `rrule` either way. -/
def post_task (localOff : Int) (now : PyDateTime) (createdS : Str) (st : Store)
    (tin : TaskIn) : Except PyErr (Store × TaskRec) := do
  let due := tin.due
  if (match due with | none => true | some s => s.isEmpty) then do
    let (cleaned, extracted) ← extract_due now tin.title
    match extracted with
    | some e => add_task localOff createdS st cleaned (some e) none
    | none => add_task localOff createdS st tin.title due none
  else
    add_task localOff createdS st tin.title due none

/-- A `field → value` entry of the `fields` dict handed to `update_task`. -/
inductive FieldKV where
  | titleF (v : Str)
  | dueF (v : Str)
  | doneF (v : Bool)
  | rruleF (v : Str)
deriving DecidableEq, Repr

/-- Building one SET clause of `update_task` (storage.py 484-499): the due
value is normalized while the query is built, so its error precedes any row
change. -/
def fieldUpdate (localOff : Int) : FieldKV → Except PyErr (TaskRec → TaskRec)
  | .titleF v => pure (fun t => { t with title := v, tags := tags_from v })
  | .dueF v => (normalize_due_to_utc localOff (some v)).map (fun n => fun t => { t with due := n })
  | .doneF v => pure (fun t => { t with done := v })
  | .rruleF v => pure (fun t => { t with rrule := some v })

/-- `update_task(task_id, **fields)` (storage.py 474-516). -/
def update_task (localOff : Int) (st : Store) (task_id : Int) (fields : List FieldKV) :
    Except PyErr (Store × Option TaskRec) := do
  if fields.isEmpty then pure (st, none)
  else do
    let ups ← fields.mapM (fieldUpdate localOff)
    let apply1 := fun (t : TaskRec) => ups.foldl (fun acc f => f acc) t
    let newTasks := st.tasks.map (fun t => if t.id = .num task_id then apply1 t else t)
    if st.tasks.any (fun t => t.id = .num task_id) then
      pure ({ st with tasks := newTasks },
            newTasks.find? (fun t => t.id = .num task_id))
    else pure (st, none)

/-- The request body `TaskPatch` (schemas.py). -/
structure TaskPatch where
  title : Option Str
  due : Option Str
  done : Option Bool
  rrule : Option Str
  priority : Option Str
deriving Repr

/-- The `fields` dict built by `patch_task` (main.py 160-167): only
title/due/done are ever included. -/
def patchFields (tp : TaskPatch) : List FieldKV :=
  (match tp.title with | some v => [.titleF v] | none => []) ++
  (match tp.due with | some v => [.dueF v] | none => []) ++
  (match tp.done with | some v => [.doneF v] | none => [])

/-- `patch_task` (main.py 158-176): `none` is the 400 response for an empty
patch (no storage call). -/
def patch_task (localOff : Int) (st : Store) (task_id : Int) (tp : TaskPatch) :
    Except PyErr (Option (Store × Option TaskRec)) :=
  let fields := patchFields tp
  if fields.isEmpty then pure none
  else (update_task localOff st task_id fields).map some

/-! ## Sample values used by the claim theorems and their witnesses -/

/-- A local-clock reading: Saturday 2024-06-15, 10:30:00 (naive, as
`datetime.now()` returns). -/
def nowSat : PyDateTime := ⟨2024, 6, 15, 10, 30, 0, none⟩

/-- The task of testable property 7: due 2024-01-01T09:00:00Z,
rrule `FREQ=WEEKLY;COUNT=4`. -/
def taskW4 : TaskRec :=
  { id := .num 1, title := S "pay rent", due := some (S "2024-01-01T09:00:00Z"),
    done := false, created := S "", tags := S "", notified_at := none,
    rrule := some (S "FREQ=WEEKLY;COUNT=4") }

/-- The anchor instant of `taskW4` as parsed and made aware. -/
def anchorW4 : PyDateTime := ⟨2024, 1, 1, 9, 0, 0, some 0⟩

/-- The `k`-th weekly occurrence instant of `taskW4` (k = 0..3). -/
def occW4 (k : Nat) : PyDateTime := ⟨2024, 1, 1 + 7 * k, 9, 0, 0, some 0⟩

/-- A `datetime.now(timezone.utc)` reading well past the last `taskW4`
occurrence. -/
def nowLate : PyDateTime := ⟨2026, 10, 12, 0, 0, 0, some 0⟩

/-- A `datetime.now(timezone.utc)` reading at 2024-01-01T00:00:00Z. -/
def nowJan1 : PyDateTime := ⟨2024, 1, 1, 0, 0, 0, some 0⟩

/-- A local-clock reading on a Monday: 2024-06-10, 10:30:00. -/
def nowMonday : PyDateTime := ⟨2024, 6, 10, 10, 30, 0, none⟩

/-- The field ranges the `datetime` constructor enforces (CPython
`_check_date_fields` / `_check_time_fields`). -/
def validFields (d : PyDateTime) : Prop :=
  1 ≤ d.year ∧ d.year ≤ 9999 ∧ 1 ≤ d.month ∧ d.month ≤ 12 ∧ 1 ≤ d.day ∧
  d.day ≤ daysInMonth d.year d.month ∧ d.hour ≤ 23 ∧ d.minute ≤ 59 ∧ d.second ≤ 59


/-- A POST /tasks body that supplies an `rrule`. -/
def tinC10 : TaskIn := ⟨S "buy milk", none, some (S "FREQ=DAILY"), none⟩

/-- A PATCH body that supplies a title and an `rrule`. -/
def tpC10 : TaskPatch := ⟨some (S "pay the rent"), none, none, some (S "FREQ=DAILY"), none⟩

/-- A store holding one recurring task, id 5. -/
def stPatchC10 : Store := ⟨[{ taskW4 with id := .num 5 }], 6⟩

/-- The row `post_task` creates from `tinC10`: `rrule` is `none`. -/
def rowC10 : TaskRec :=
  { id := .num 1, title := S "buy milk", due := none, done := false,
    created := S "c", tags := S "", notified_at := none, rrule := none }

/-- The row after patching with `tpC10`: the stored `rrule` survives. -/
def rowPatchedC10 : TaskRec := { taskW4 with id := .num 5, title := S "pay the rent" }

/-! # Claim theorems -/

/-- C2 (code_bug): the claim says time-phrase extraction never raises on any
input text, naming "on February 31" in particular; but `_extract_due` builds
`datetime(current_year, 2, 31, 9, 0, 0)` with no enclosing try, and that
constructor call raises ValueError ("day is out of range for month"), which
propagates to the caller.  The theorem evaluates the embedded extractor at
the failing input. -/
theorem c2_extraction_raises_on_feb31 :
    extract_due nowSat (S "pay rent on February 31") = .error .valueError := by
  rfl

/-- C4 (counterexample): the claim says occurrences of the matched span's
character sequence other than the matched span itself are preserved.  On
"pay rent at 5 and wash at 5" the `at hh` recognizer matches the first
"at 5 " span, but `str.replace` removes the second occurrence as well: the
residual is "pay rent and wash", with no "at 5" left. -/
theorem c4_counterexample :
    extract_due nowSat (S "pay rent at 5 and wash at 5") =
      .ok (S "pay rent and wash", some (S "2024-06-15T05:00:00")) ∧
    strIn (S "at 5") (S "pay rent and wash") = false := by
  refine ⟨?_, ?_⟩
  · rfl
  · rfl

/-- Helper: bind on an ok value reduces. -/
theorem exc_bind_ok {a b : Type} (x : a) (f : a → Except PyErr b) :
    (Except.ok x >>= f) = f x := rfl

/-- Helper: bind on an error short-circuits. -/
theorem exc_bind_err {a b : Type} (e : PyErr) (f : a → Except PyErr b) :
    ((Except.error e : Except PyErr a) >>= f) = .error e := rfl

/-- Helper: once a due is set, every later recognizer block leaves the state
unchanged (the `if m and not due` guard). -/
theorem runRecs_some (rs : List Recog) (t : Str) (d : PyDateTime) :
    runRecs rs (t, some d) = .ok (t, some d) := by
  induction rs with
  | nil => rfl
  | cons r rest ih =>
    unfold runRecs at ih ⊢
    rw [List.foldlM_cons]
    show (Except.ok (t, some d) >>= fun st => List.foldlM runRec st rest) = _
    rw [exc_bind_ok]
    exact ih

/-- Helper: a successful cascade run either finds nothing (text unchanged) or
finds one span `g` and replaces every occurrence of `g` in the original
working text. -/
theorem runRecs_shape (rs : List Recog) (t0 : Str) (res : Str × Option PyDateTime)
    (h : runRecs rs (t0, none) = .ok res) :
    res = (t0, none) ∨ ∃ g d, res.1 = pyReplace t0 g spc ∧ res.2 = some d := by
  induction rs with
  | nil =>
    left
    unfold runRecs at h
    simp only [List.foldlM_nil] at h
    exact (Except.ok.inj h).symm
  | cons r rest ih =>
    unfold runRecs at h
    rw [List.foldlM_cons] at h
    cases hr : r t0 with
    | none =>
      apply ih
      unfold runRecs
      have hstep : runRec (t0, none) r = .ok (t0, none) := by
        unfold runRec; rw [hr]
      rw [hstep, exc_bind_ok] at h
      exact h
    | some m =>
      obtain ⟨g, dE⟩ := m
      cases hd : dE with
      | error e =>
        exfalso
        have hstep : runRec (t0, none) r = .error e := by
          unfold runRec; rw [hr, hd]; rfl
        rw [hstep, exc_bind_err] at h
        exact Except.noConfusion h
      | ok d =>
        right
        have hstep : runRec (t0, none) r = .ok (pyReplace t0 g spc, some d) := by
          unfold runRec; rw [hr, hd]; rfl
        rw [hstep, exc_bind_ok] at h
        have h2 := runRecs_some rest (pyReplace t0 g spc) d
        unfold runRecs at h2
        rw [h2] at h
        obtain rfl := (Except.ok.inj h).symm
        exact ⟨g, d, rfl, rfl⟩

/-- C4 (corrected): when a recognizer matches, the code removes EVERY
occurrence in the working text of the matched span's character sequence
(Python `str.replace` semantics), not only the matched span; the rest of the
claim holds: no iterative re-scanning takes place — the residual is the
whitespace-collapse of the padded input with the one matched span replaced
throughout by a single space — and on no match the residual is just the
whitespace-collapsed input. -/
theorem c4_matched_span_replaced_throughout (now : PyDateTime) (s cleaned : Str)
    (due : Option Str) (h : extract_due now s = .ok (cleaned, due)) :
    (due.isSome = true → ∃ g, cleaned = collapse (pyReplace (spc ++ s ++ spc) g spc)) ∧
    (due = none → cleaned = collapse (spc ++ s ++ spc)) := by
  unfold extract_due at h
  dsimp only at h
  cases hr : runRecs (recogs now) (spc ++ s ++ spc, none) with
  | error e =>
    rw [hr, exc_bind_err] at h
    exact Except.noConfusion h
  | ok res =>
    rw [hr, exc_bind_ok] at h
    have hres := Except.ok.inj h
    have h1 : collapse res.1 = cleaned := congrArg Prod.fst hres
    have h2 : res.2.map isoformat = due := congrArg Prod.snd hres
    rcases runRecs_shape _ _ _ hr with hsh | ⟨g, d, hg, hd⟩
    · constructor
      · intro hsome
        exfalso
        have hn : res.2 = none := congrArg Prod.snd hsh
        rw [hn] at h2
        rw [← h2] at hsome
        exact Bool.noConfusion hsome
      · intro _
        have : res.1 = spc ++ s ++ spc := congrArg Prod.fst hsh
        rw [this] at h1
        exact h1.symm
    · constructor
      · intro _
        exact ⟨g, by rw [← h1, hg]⟩
      · intro hnone
        rw [hd] at h2
        rw [← h2] at hnone
        exact Option.noConfusion hnone

/-- Closed witness for C4: on "call bob at 5" the span "at 5" is matched and
the residual is the collapse of the padded input with that span replaced. -/
theorem c4_matched_span_replaced_throughout_witness :
    ∃ g, S "call bob" = collapse (pyReplace (spc ++ S "call bob at 5" ++ spc) g spc) :=
  (c4_matched_span_replaced_throughout nowSat (S "call bob at 5") (S "call bob")
    (some (S "2024-06-15T05:00:00")) (by rfl)).1 (by rfl)

/-- C3 (confirmed): for every task whose recurrence rule fails to evaluate,
`_expand_recurring_task` returns the single original task and never
propagates the error: the whole rule evaluation sits in a `try` whose
`except` returns `[task]`. -/
theorem c3_malformed_rrule_passthrough (task : TaskRec) (r : Str)
    (sd ed : Option PyDateTime) (now : PyDateTime)
    (hr : task.rrule = some r) (hbad : rrulestr r = none) :
    expand_recurring_task task sd ed now = [task] := by
  unfold expand_recurring_task
  by_cases hguard : ((match task.rrule with | none => true | some r => r.isEmpty) ||
      (match task.due with | none => true | some d => d.isEmpty)) = true
  · rw [if_pos hguard]
  · rw [if_neg hguard]
    unfold expandCore
    cases hp : parse_date (task.due.getD []) with
    | none => rfl
    | some d0 =>
      rw [hr]
      simp only [Option.getD_some, hbad]
      rfl

/-- Closed witness for C3: a task with rule "FREQ=BOGUS" expands to itself. -/
theorem c3_malformed_rrule_passthrough_witness :
    rrulestr (S "FREQ=BOGUS") = none ∧
    expand_recurring_task { taskW4 with rrule := some (S "FREQ=BOGUS") } none none nowJan1 =
      [{ taskW4 with rrule := some (S "FREQ=BOGUS") }] :=
  ⟨by rfl,
   c3_malformed_rrule_passthrough _ (S "FREQ=BOGUS") none none nowJan1 rfl (by rfl)⟩

/-- Helper: bind followed by pure is map. -/
theorem exc_bind_pure_map {a b : Type} (x : Except PyErr a) (f : a → b) :
    (x >>= fun r => pure (f r) : Except PyErr b) = x.map f := by
  cases x <;> rfl

/-- Helper: one pass of the occurrence loop when the occurrence is inside the
window: it is collected and the loop continues. -/
theorem occLoop_cons (task : TaskRec) (ru : RRuleSpec) (dtstart startD endD : PyDateTime)
    (k rem : Nat) (occ0 : PyDateTime)
    (hocc : occAt ru dtstart k = .ok occ0)
    (hend : absLt endD (awareUTC occ0) = false)
    (hstart : absLe startD (awareUTC occ0) = true) :
    occLoop task ru dtstart startD endD k (rem + 1) =
      (occLoop task ru dtstart startD endD (k + 1) rem).map
        (fun rest => mkOccurrence task (awareUTC occ0) :: rest) := by
  have h0 : occLoop task ru dtstart startD endD k (rem + 1) =
      (occAt ru dtstart k) >>= (fun o =>
        if absLt endD (awareUTC o) then (pure [] : Except PyErr (List TaskRec))
        else (occLoop task ru dtstart startD endD (k + 1) rem) >>= fun rest =>
          if absLe startD (awareUTC o) then pure (mkOccurrence task (awareUTC o) :: rest)
          else pure rest) := rfl
  rw [h0, hocc, exc_bind_ok]
  simp only [hend, hstart, Bool.false_eq_true, if_false, if_true]
  exact exc_bind_pure_map _ _

/-- C1 (counterexample): with the window defaults of the code — window_start
is the CURRENT time — expand(task, None, None) evaluated today returns no
occurrence at all for the 2024 task of the claim, not 4: every occurrence of
the rule lies before the default window. -/
theorem c1_counterexample :
    expand_recurring_task taskW4 none none nowLate = [] := by rfl

/-- C1 (corrected): the 4-occurrence result holds exactly when the current
time (the default window start) is no later than the anchor
2024-01-01T09:00:00Z and the default window end, current time + 6 months,
is no earlier than the last occurrence 2024-01-22T09:00:00Z.  Under those
hypotheses expand(task, None, None) returns exactly the 4 occurrences at
09:00 UTC on 2024-01-01/08/15/22, with synthetic ids "1_r_20240101_090000"
etc., in ascending due order. -/
theorem c1_expand_weekly_count4 (now e : PyDateTime)
    (hm : addMonths now 6 = .ok e)
    (h1 : absSecs now ≤ absSecs anchorW4)
    (h2 : absSecs (occW4 3) ≤ absSecs e) :
    expand_recurring_task taskW4 none none now =
      [mkOccurrence taskW4 (occW4 0), mkOccurrence taskW4 (occW4 1),
       mkOccurrence taskW4 (occW4 2), mkOccurrence taskW4 (occW4 3)] := by
  have hend : ∀ k : Nat, k ≤ 3 → absLt e (occW4 k) = false := by
    intro k hk
    have h4 : absSecs (occW4 k) ≤ absSecs (occW4 3) := by
      interval_cases k <;> decide
    unfold absLt
    simp only [decide_eq_false_iff_not]
    omega
  have hstart : ∀ k : Nat, k ≤ 3 → absLe now (occW4 k) = true := by
    intro k hk
    have h4 : absSecs anchorW4 ≤ absSecs (occW4 k) := by
      interval_cases k <;> decide
    unfold absLe
    simp only [decide_eq_true_eq]
    omega
  have hcore : expandCore taskW4 none none now =
      .ok [mkOccurrence taskW4 (occW4 0), mkOccurrence taskW4 (occW4 1),
           mkOccurrence taskW4 (occW4 2), mkOccurrence taskW4 (occW4 3)] := by
    have hpre : expandCore taskW4 none none now =
        (addMonths now 6) >>= fun endD =>
          occLoop taskW4 ⟨7, 1, 4⟩ anchorW4 now endD 0 4 := rfl
    rw [hpre, hm, exc_bind_ok]
    calc occLoop taskW4 ⟨7, 1, 4⟩ anchorW4 now e 0 4
        = (occLoop taskW4 ⟨7, 1, 4⟩ anchorW4 now e 1 3).map
            (fun rest => mkOccurrence taskW4 (occW4 0) :: rest) :=
          occLoop_cons _ _ _ _ _ 0 3 (occW4 0) (by rfl) (hend 0 (by omega)) (hstart 0 (by omega))
      _ = ((occLoop taskW4 ⟨7, 1, 4⟩ anchorW4 now e 2 2).map
            (fun rest => mkOccurrence taskW4 (occW4 1) :: rest)).map
            (fun rest => mkOccurrence taskW4 (occW4 0) :: rest) := by
          rw [occLoop_cons _ _ _ _ _ 1 2 (occW4 1) (by rfl) (hend 1 (by omega)) (hstart 1 (by omega))]; rfl
      _ = (((occLoop taskW4 ⟨7, 1, 4⟩ anchorW4 now e 3 1).map
            (fun rest => mkOccurrence taskW4 (occW4 2) :: rest)).map
            (fun rest => mkOccurrence taskW4 (occW4 1) :: rest)).map
            (fun rest => mkOccurrence taskW4 (occW4 0) :: rest) := by
          rw [occLoop_cons _ _ _ _ _ 2 1 (occW4 2) (by rfl) (hend 2 (by omega)) (hstart 2 (by omega))]; rfl
      _ = ((((occLoop taskW4 ⟨7, 1, 4⟩ anchorW4 now e 4 0).map
            (fun rest => mkOccurrence taskW4 (occW4 3) :: rest)).map
            (fun rest => mkOccurrence taskW4 (occW4 2) :: rest)).map
            (fun rest => mkOccurrence taskW4 (occW4 1) :: rest)).map
            (fun rest => mkOccurrence taskW4 (occW4 0) :: rest) := by
          rw [occLoop_cons _ _ _ _ _ 3 0 (occW4 3) (by rfl) (hend 3 (by omega)) (hstart 3 (by omega))]; rfl
      _ = .ok [mkOccurrence taskW4 (occW4 0), mkOccurrence taskW4 (occW4 1),
               mkOccurrence taskW4 (occW4 2), mkOccurrence taskW4 (occW4 3)] := rfl
  unfold expand_recurring_task
  rw [if_neg (by decide), hcore]

/-- Closed witness for C1: at the current time 2024-01-01T00:00:00Z the
amended hypotheses hold and the 4 occurrences come out. -/
theorem c1_expand_weekly_count4_witness :
    addMonths nowJan1 6 = .ok ⟨2024, 7, 1, 0, 0, 0, some 0⟩ ∧
    expand_recurring_task taskW4 none none nowJan1 =
      [mkOccurrence taskW4 (occW4 0), mkOccurrence taskW4 (occW4 1),
       mkOccurrence taskW4 (occW4 2), mkOccurrence taskW4 (occW4 3)] :=
  ⟨by rfl,
   c1_expand_weekly_count4 nowJan1 ⟨2024, 7, 1, 0, 0, 0, some 0⟩ (by rfl)
     (by decide) (by decide)⟩

/-- Helper: `awareUTC` is idempotent. -/
theorem awareUTC_awareUTC (d : PyDateTime) : awareUTC (awareUTC d) = awareUTC d := by
  unfold awareUTC
  cases h : d.tz <;> simp [h]

/-- Helper: when every remaining occurrence lies before the window start or
past the window end, the occurrence loop collects nothing. -/
theorem occLoop_outside (task : TaskRec) (ru : RRuleSpec) (dtstart s e : PyDateTime) :
    ∀ (rem k : Nat),
    (∀ i, k ≤ i → i < k + rem → ∃ o, occAt ru dtstart i = .ok o ∧
        (absLt (awareUTC o) s = true ∨ absLt e (awareUTC o) = true)) →
    occLoop task ru dtstart s e k rem = .ok [] := by
  intro rem
  induction rem with
  | zero => intro k _; rfl
  | succ n ih =>
    intro k h
    obtain ⟨o, ho, hcase⟩ := h k (Nat.le_refl k) (by omega)
    have h0 : occLoop task ru dtstart s e k (n + 1) =
        (occAt ru dtstart k) >>= (fun o0 =>
          if absLt e (awareUTC o0) then (pure [] : Except PyErr (List TaskRec))
          else (occLoop task ru dtstart s e (k + 1) n) >>= fun rest =>
            if absLe s (awareUTC o0) then pure (mkOccurrence task (awareUTC o0) :: rest)
            else pure rest) := rfl
    rw [h0, ho, exc_bind_ok]
    by_cases hb : absLt e (awareUTC o) = true
    · rw [if_pos hb]; rfl
    · rw [if_neg hb]
      have hlt : absLt (awareUTC o) s = true := by
        rcases hcase with hc | hc
        · exact hc
        · exact absurd hc hb
      have hle : absLe s (awareUTC o) = false := by
        unfold absLt at hlt
        unfold absLe
        simp only [decide_eq_true_eq] at hlt
        simp only [decide_eq_false_iff_not]
        omega
      have hrec := ih (k + 1) (fun i h1 h2 => h i (by omega) (by omega))
      rw [hrec, exc_bind_ok, if_neg (by simp [hle])]
      rfl

/-- C9 (confirmed): a task with a present due and an evaluable recurrence
rule all of whose occurrences fall outside the query window expands to the
empty list (not the single-task passthrough), and the `list_tasks`
post-processing therefore omits it entirely from the response. -/
theorem c9_out_of_window_omitted (task : TaskRec) (r due_s ss es : Str)
    (d0 sd0 ed0 : PyDateTime) (ru : RRuleSpec) (now : PyDateTime) (oo : Bool) (lim : Nat)
    (hr : task.rrule = some r) (hrne : r.isEmpty = false)
    (hdue : task.due = some due_s) (hdne : due_s.isEmpty = false)
    (hp : parse_date due_s = some d0)
    (hru : rrulestr r = some ru)
    (hps : parse_date ss = some sd0)
    (hpe : parse_date es = some ed0)
    (hout : ∀ k, k < ru.count → ∃ o, occAt ru (awareUTC d0) k = .ok o ∧
        (absLt (awareUTC o) (awareUTC sd0) = true ∨ absLt (awareUTC ed0) (awareUTC o) = true)) :
    expand_recurring_task task (some (awareUTC sd0)) (some (awareUTC ed0)) now = [] ∧
    listTasksPost [task] oo lim (some ss) (some es) now = .ok [] := by
  have hexp : expand_recurring_task task (some (awareUTC sd0)) (some (awareUTC ed0)) now = [] := by
    unfold expand_recurring_task
    rw [if_neg (by simp [hr, hdue, hrne, hdne])]
    have hcore : expandCore task (some (awareUTC sd0)) (some (awareUTC ed0)) now =
        occLoop task ru (awareUTC d0) (awareUTC (awareUTC sd0)) (awareUTC (awareUTC ed0))
          0 ru.count := by
      unfold expandCore
      rw [hdue]
      simp only [Option.getD_some, hp]
      rw [hr]
      simp only [Option.getD_some, hru]
      rfl
    rw [hcore, awareUTC_awareUTC, awareUTC_awareUTC]
    rw [occLoop_outside task ru (awareUTC d0) (awareUTC sd0) (awareUTC ed0) ru.count 0
      (fun i h1 h2 => hout i (by omega))]
  refine ⟨hexp, ?_⟩
  unfold listTasksPost
  simp only [hps, hpe]
  have hbranch : (match task.rrule with
      | some r => !r.isEmpty
      | none => false) = true := by
    rw [hr]
    simp [hrne]
  simp only [List.foldlM_cons, List.foldlM_nil, hbranch, if_true, hexp]
  cases oo <;> simp [stableSort, List.take_nil] <;> rfl

/-- Closed witness for C9: the weekly COUNT=2 task anchored 2024-01-01 is
dropped from a January-2025 window query. -/
theorem c9_out_of_window_omitted_witness :
    expand_recurring_task { taskW4 with rrule := some (S "FREQ=WEEKLY;COUNT=2") }
      (some ⟨2025, 1, 1, 0, 0, 0, some 0⟩) (some ⟨2025, 2, 1, 0, 0, 0, some 0⟩) nowJan1 = [] ∧
    listTasksPost [{ taskW4 with rrule := some (S "FREQ=WEEKLY;COUNT=2") }] true 200
      (some (S "2025-01-01T00:00:00Z")) (some (S "2025-02-01T00:00:00Z")) nowJan1 = .ok [] := by
  have h := c9_out_of_window_omitted
    { taskW4 with rrule := some (S "FREQ=WEEKLY;COUNT=2") }
    (S "FREQ=WEEKLY;COUNT=2") (S "2024-01-01T09:00:00Z")
    (S "2025-01-01T00:00:00Z") (S "2025-02-01T00:00:00Z")
    ⟨2024, 1, 1, 9, 0, 0, some 0⟩ ⟨2025, 1, 1, 0, 0, 0, some 0⟩ ⟨2025, 2, 1, 0, 0, 0, some 0⟩
    ⟨7, 1, 2⟩ nowJan1 true 200
    rfl (by rfl) rfl (by rfl) (by rfl) (by rfl) (by rfl) (by rfl)
    (by
      intro k hk
      interval_cases k
      · exact ⟨⟨2024, 1, 1, 9, 0, 0, some 0⟩, by rfl, Or.inl (by decide)⟩
      · exact ⟨⟨2024, 1, 8, 9, 0, 0, some 0⟩, by rfl, Or.inl (by decide)⟩)
  exact h

/-- C5 (counterexample): the claim's roll-forward rule — next year exactly
when the named date at MIDNIGHT is already past — would send a phrase naming
today's own date to next year (today's midnight is past once the day has
started).  The code compares the candidate at 09:00 against today's
midnight, so "on June 15", spoken on 2024-06-15 at 10:30, resolves to
2024-06-15 (current year), not 2025. -/
theorem c5_counterexample :
    extract_due nowSat (S "on June 15") = .ok ([], some (S "2024-06-15T09:00:00")) ∧
    wallLt ⟨2024, 6, 15, 0, 0, 0, none⟩ nowSat = true := by
  refine ⟨?_, ?_⟩
  · rfl
  · rfl

/-- C5 (corrected): a month-name-with-day phrase resolves to that calendar
date in the current year (09:00 default, or the given time), and rolls to
the next year exactly when the candidate AT 09:00 lies before today's
midnight — equivalently, exactly when the named date's ordinal is strictly
before today's ordinal; in particular a phrase naming today's own date stays
in the current year. -/
theorem c5_month_day_roll (now : PyDateTime) (mon : Str) (mo da : Nat) (t : Option TimeGrp)
    (hmo : lookupN monthMap mon = mo)
    (hmo1 : 1 ≤ mo) (hmo2 : mo ≤ 12)
    (hda1 : 1 ≤ da) (hda : da ≤ daysInMonth now.year mo)
    (hy1 : 1 ≤ now.year) (hy2 : now.year + 1 ≤ 9999)
    (hnd : 1 ≤ now.day)
    (hdaRoll : wallLt ⟨now.year, mo, da, 9, 0, 0, none⟩ (nowMidnight now) = true →
      da ≤ daysInMonth (now.year + 1) mo)
    (ht : ∀ tg ∈ t, setTimeHour tg.hh tg.ap ≤ 23 ∧ tg.mm.getD 0 ≤ 59) :
    monthDayCompute now mon da t =
      .ok ⟨(if wallLt ⟨now.year, mo, da, 9, 0, 0, none⟩ (nowMidnight now) then now.year + 1
            else now.year),
           mo, da,
           (match t with | none => 9 | some tg => setTimeHour tg.hh tg.ap),
           (match t with | none => 0 | some tg => tg.mm.getD 0),
           0, none⟩ ∧
    (wallLt ⟨now.year, mo, da, 9, 0, 0, none⟩ (nowMidnight now) = true ↔
      ymd2ord now.year mo da < ymd2ord now.year now.month now.day) ∧
    (mo = now.month → da = now.day →
      wallLt ⟨now.year, mo, da, 9, 0, 0, none⟩ (nowMidnight now) = false) := by
  have hiff : wallLt ⟨now.year, mo, da, 9, 0, 0, none⟩ (nowMidnight now) = true ↔
      ymd2ord now.year mo da < ymd2ord now.year now.month now.day := by
    unfold wallLt wallSecs nowMidnight
    simp only [decide_eq_true_eq]
    have o1 : 1 ≤ ymd2ord now.year mo da := by
      unfold ymd2ord
      omega
    have o2 : 1 ≤ ymd2ord now.year now.month now.day := by
      unfold ymd2ord
      omega
    constructor <;> intro hlt <;> omega
  refine ⟨?_, hiff, ?_⟩
  · unfold monthDayCompute
    dsimp only
    rw [hmo]
    have hc : pyDatetime now.year mo da 9 0 0 none = .ok ⟨now.year, mo, da, 9, 0, 0, none⟩ := by
      unfold pyDatetime
      rw [if_pos]
      omega
    rw [hc]
    simp only [exc_bind_ok]
    by_cases hroll : wallLt ⟨now.year, mo, da, 9, 0, 0, none⟩ (nowMidnight now) = true
    · rw [if_pos hroll, if_pos hroll]
      have hc2 : pyReplaceYear ⟨now.year, mo, da, 9, 0, 0, none⟩ (now.year + 1) =
          .ok ⟨now.year + 1, mo, da, 9, 0, 0, none⟩ := by
        unfold pyReplaceYear pyDatetime
        rw [if_pos]
        have := hdaRoll hroll
        simp only
        omega
      rw [hc2]
      simp only [exc_bind_ok]
      cases t with
      | none => rfl
      | some tg =>
        have htg := ht tg rfl
        unfold set_time pyReplaceTime
        dsimp only
        rw [if_pos htg]
    · rw [if_neg hroll, if_neg hroll]
      rw [show (pure ⟨now.year, mo, da, 9, 0, 0, none⟩ : Except PyErr PyDateTime) =
          .ok ⟨now.year, mo, da, 9, 0, 0, none⟩ from rfl]
      simp only [exc_bind_ok]
      cases t with
      | none => rfl
      | some tg =>
        have htg := ht tg rfl
        unfold set_time pyReplaceTime
        dsimp only
        rw [if_pos htg]
  · intro he1 he2
    subst he1
    subst he2
    rw [Bool.eq_false_iff]
    intro hcon
    have := hiff.mp hcon
    omega

/-- Closed witness for C5: spoken at 10:30 on Saturday 2024-06-15, "june 15"
(today's own date) stays in 2024; its midnight ordinal is not before
today's. -/
theorem c5_month_day_roll_witness :
    monthDayCompute nowSat (S "june") 15 none = .ok ⟨2024, 6, 15, 9, 0, 0, none⟩ ∧
    wallLt ⟨2024, 6, 15, 9, 0, 0, none⟩ (nowMidnight nowSat) = false := by
  have h := c5_month_day_roll nowSat (S "june") 6 15 none (by rfl) (by decide) (by decide)
    (by decide) (by decide) (by decide) (by decide) (by decide)
    (by intro hcon; exact absurd hcon (by decide)) (by intro tg htg; cases htg)
  refine ⟨?_, h.2.2 rfl rfl⟩
  have h2 := h.2.2 rfl rfl
  rw [h.1, h2]
  rfl


/-- C6 (confirmed): for a bare weekday-with-time phrase naming today's own
weekday, the branch resolves to today exactly when the (am/pm-adjusted)
given clock time is strictly in the future at minute granularity, and
otherwise rolls forward 7 days; the delta in the conclusion is 0 (today)
precisely on the strictly-future side. -/
theorem c6_weekday_same_day_roll (now : PyDateTime) (wd : Str) (t : TimeGrp)
    (hwd : lookupN wdMap wd = pyWeekday now) :
    r5compute now wd t =
      (addDays now
        (if now.hour < r5AdjHour t ∨ (now.hour = r5AdjHour t ∧ now.minute < t.mm.getD 0)
         then (0 : Int) else 7)) >>= fun d =>
        set_time d t.hh (t.mm.getD 0) t.ap := by
  unfold r5compute
  dsimp only
  rw [hwd]
  rw [show (pyWeekday now + 7 - pyWeekday now) % 7 = 0 from by omega]
  rw [if_pos rfl]
  by_cases hc : r5AdjHour t < now.hour ∨ (r5AdjHour t = now.hour ∧ t.mm.getD 0 ≤ now.minute)
  · rw [if_pos hc, if_neg (by omega)]
    rfl
  · rw [if_neg hc, if_pos (by omega)]
    rfl

/-- Closed witness for C6: on Monday 2024-06-10 at 10:30, "monday 9am" (time
already passed) resolves to next Monday 2024-06-17 at 09:00, while
"monday 11am" (still ahead) resolves to today at 11:00. -/
theorem c6_weekday_same_day_roll_witness :
    r5compute nowMonday (S "monday") ⟨9, none, some (S "am")⟩ =
      .ok ⟨2024, 6, 17, 9, 0, 0, none⟩ ∧
    r5compute nowMonday (S "monday") ⟨11, none, some (S "am")⟩ =
      .ok ⟨2024, 6, 10, 11, 0, 0, none⟩ :=
  ⟨(c6_weekday_same_day_roll nowMonday (S "monday") ⟨9, none, some (S "am")⟩
      (by decide)).trans (by rfl),
   (c6_weekday_same_day_roll nowMonday (S "monday") ⟨11, none, some (S "am")⟩
      (by decide)).trans (by rfl)⟩

theorem dbm_succ (y mm : Nat) (h : 1 ≤ mm) :
    daysBeforeMonth y (mm + 1) = daysBeforeMonth y mm + daysInMonth y mm := by
  unfold daysBeforeMonth
  rw [show mm + 1 - 1 = (mm - 1) + 1 from by omega, List.range_succ, List.foldl_append]
  simp only [List.foldl_cons, List.foldl_nil]
  rw [show mm - 1 + 1 = mm from by omega]

theorem dbm_year (y : Nat) : daysBeforeMonth y 13 = 337 + daysInMonth y 2 := by
  unfold daysBeforeMonth
  norm_num [List.range_succ, List.foldl_append, daysInMonth]
  omega

theorem ord2ymd_go_valid (y : Nat) : ∀ (m : Nat), m ≤ 12 → ∀ doy : Nat,
    doy + daysBeforeMonth y (13 - m) < daysBeforeMonth y 13 →
    13 - m ≤ (ord2ymd.go y doy m).1 ∧ (ord2ymd.go y doy m).1 ≤ 12 ∧
    1 ≤ (ord2ymd.go y doy m).2 ∧
    (ord2ymd.go y doy m).2 ≤ daysInMonth y (ord2ymd.go y doy m).1 := by
  intro m
  induction m with
  | zero =>
    intro _ doy hpre
    simp only [Nat.sub_zero] at hpre
    omega
  | succ k ih =>
    intro hm doy hpre
    show 13 - (k+1) ≤ (ord2ymd.go y doy (k+1)).1 ∧ _
    unfold ord2ymd.go
    dsimp only
    by_cases hlt : doy < daysInMonth y (13 - (k + 1))
    · rw [if_pos hlt]
      refine ⟨by omega, by omega, by omega, by simpa using hlt⟩
    · rw [if_neg hlt]
      have hk : k ≤ 12 := by omega
      have hrec := ih hk (doy - daysInMonth y (13 - (k + 1)))
      have hstep : daysBeforeMonth y (13 - k) =
          daysBeforeMonth y (13 - (k + 1)) + daysInMonth y (13 - (k + 1)) := by
        rw [show 13 - k = (13 - (k + 1)) + 1 from by omega]
        exact dbm_succ y (13 - (k + 1)) (by omega)
      have := hrec (by omega)
      refine ⟨by omega, this.2.1, this.2.2⟩


theorem dbm_one (y : Nat) : daysBeforeMonth y 1 = 0 := rfl

theorem dim_feb (y : Nat) : 28 ≤ daysInMonth y 2 := by
  unfold daysInMonth
  norm_num
  split <;> omega

theorem ord2ymd_valid (n : Nat) (h1 : 1 ≤ n) (h2 : n ≤ maxOrdinal) :
    1 ≤ (ord2ymd n).1 ∧ (ord2ymd n).1 ≤ 9999 ∧
    1 ≤ (ord2ymd n).2.1 ∧ (ord2ymd n).2.1 ≤ 12 ∧
    1 ≤ (ord2ymd n).2.2 ∧ (ord2ymd n).2.2 ≤ daysInMonth (ord2ymd n).1 (ord2ymd n).2.1 := by
  unfold ord2ymd
  dsimp only
  by_cases hsp : (n - 1) % 146097 % 36524 % 1461 / 365 = 4 ∨ (n - 1) % 146097 / 36524 = 4
  · rw [if_pos hsp]
    dsimp only
    have hd12 : ∀ yy : Nat, daysInMonth yy 12 = 31 := by
      intro yy; unfold daysInMonth; norm_num
    rw [hd12]
    unfold maxOrdinal at h2
    refine ⟨by omega, by omega, by omega, by omega, by omega, by omega⟩
  · rw [if_neg hsp]
    rcases hgo : ord2ymd.go ((n - 1) / 146097 * 400 + (n - 1) % 146097 / 36524 * 100 +
        (n - 1) % 146097 % 36524 / 1461 * 4 + (n - 1) % 146097 % 36524 % 1461 / 365 + 1)
        ((n - 1) % 146097 % 36524 % 1461 % 365) 12 with ⟨mo1, da1⟩
    set yv := (n - 1) / 146097 * 400 + (n - 1) % 146097 / 36524 * 100 +
        (n - 1) % 146097 % 36524 / 1461 * 4 + (n - 1) % 146097 % 36524 % 1461 / 365 + 1 with hyv
    have hpre : (n - 1) % 146097 % 36524 % 1461 % 365 + daysBeforeMonth yv (13 - 12) <
        daysBeforeMonth yv 13 := by
      rw [show (13 : Nat) - 12 = 1 from rfl, dbm_one, dbm_year]
      have := dim_feb yv
      omega
    have hg := ord2ymd_go_valid yv 12 (by omega) ((n - 1) % 146097 % 36524 % 1461 % 365) hpre
    rw [hgo] at hg
    dsimp only [hgo]
    unfold maxOrdinal at h2
    refine ⟨by omega, by omega, by simpa using hg.1, hg.2.1, hg.2.2.1, ?_⟩
    simpa using hg.2.2.2


theorem pyDatetime_ok (y mo da h mi sec : Nat) (tz : Option Int) (d : PyDateTime)
    (hok : pyDatetime y mo da h mi sec tz = .ok d) :
    validFields d ∧ d = ⟨y, mo, da, h, mi, sec, tz⟩ := by
  unfold pyDatetime at hok
  split at hok
  · rename_i hcond
    have hd := Except.ok.inj hok
    refine ⟨?_, hd.symm⟩
    rw [← hd]
    exact hcond
  · exact Except.noConfusion hok

theorem addSecs_valid (d : PyDateTime) (secs : Int) (d1 : PyDateTime)
    (h : addSecs d secs = .ok d1) : validFields d1 ∧ d1.tz = d.tz := by
  unfold addSecs at h
  dsimp only at h
  split at h
  · rename_i hrange
    set t := (wallSecs d : Int) + secs with ht
    rcases hy : ord2ymd (t.toNat / 86400 + 1) with ⟨y1, mo1, da1⟩
    rw [hy] at h
    have hd1 := (Except.ok.inj h).symm
    have hvo : 1 ≤ t.toNat / 86400 + 1 ∧ t.toNat / 86400 + 1 ≤ maxOrdinal := by
      unfold maxOrdinal
      constructor
      · omega
      · have h1 : (t.toNat : Int) = t := Int.toNat_of_nonneg hrange.1
        have h2 : t < (maxOrdinal : Int) * 86400 := hrange.2
        unfold maxOrdinal at h2
        omega
    have hval := ord2ymd_valid (t.toNat / 86400 + 1) hvo.1 hvo.2
    rw [hy] at hval
    subst hd1
    refine ⟨⟨hval.1, hval.2.1, hval.2.2.1, hval.2.2.2.1, hval.2.2.2.2.1,
      hval.2.2.2.2.2, by dsimp only; omega, by dsimp only; omega, by dsimp only; omega⟩, rfl⟩
  · exact Except.noConfusion h



theorem digCh_isDigit (n : Nat) (h : n ≤ 9) : isDigitCh (digCh n) = true := by
  interval_cases n <;> rfl

theorem digVal_digCh (n : Nat) (h : n ≤ 9) : digVal (digCh n) = n := by
  interval_cases n <;> rfl

theorem dig2_digCh (a b : Nat) (ha : a ≤ 9) (hb : b ≤ 9) :
    dig2 (digCh a) (digCh b) = some (a * 10 + b) := by
  unfold dig2
  rw [if_pos ⟨digCh_isDigit a ha, digCh_isDigit b hb⟩, digVal_digCh a ha, digVal_digCh b hb]

theorem dim_le_31 (y m : Nat) : daysInMonth y m ≤ 31 := by
  unfold daysInMonth
  split <;> try omega
  repeat' split <;> try omega

theorem fromiso_isoformat (u : PyDateTime) (hv : validFields u) (hz : u.tz = some 0) :
    fromisoformat (isoformat u) = some u := by
  obtain ⟨y0, mo0, da0, h0, mi0, s0, tz⟩ := u
  simp only at hz
  subst hz
  obtain ⟨hy1, hy2, hm1, hm2, hd1, hd2, hh, hmi, hs⟩ := hv
  simp only at hy1 hy2 hm1 hm2 hd1 hd2 hh hmi hs
  show fromisoformat
      (digCh (y0 / 1000 % 10) :: digCh (y0 / 100 % 10) :: digCh (y0 / 10 % 10) :: digCh (y0 % 10) ::
       '-' :: digCh (mo0 / 10 % 10) :: digCh (mo0 % 10) ::
       '-' :: digCh (da0 / 10 % 10) :: digCh (da0 % 10) ::
       'T' :: digCh (h0 / 10 % 10) :: digCh (h0 % 10) ::
       ':' :: digCh (mi0 / 10 % 10) :: digCh (mi0 % 10) ::
       ':' :: digCh (s0 / 10 % 10) :: digCh (s0 % 10) ::
       ['+', digCh 0, digCh 0, ':', digCh 0, digCh 0]) = _
  unfold fromisoformat
  dsimp only
  rw [if_pos ⟨rfl, rfl, rfl, rfl,
      digCh_isDigit _ (by omega), digCh_isDigit _ (by omega),
      digCh_isDigit _ (by omega), digCh_isDigit _ (by omega), by decide, by decide⟩]
  rw [dig2_digCh _ _ (by omega) (by omega), dig2_digCh _ _ (by omega) (by omega),
      dig2_digCh _ _ (by omega) (by omega), dig2_digCh _ _ (by omega) (by omega),
      dig2_digCh _ _ (by omega) (by omega)]
  simp only [Option.some_bind]
  rw [show parseOffPart ['+', digCh 0, digCh 0, ':', digCh 0, digCh 0] = some (some 0) from rfl]
  simp only [Option.some_bind]
  rw [digVal_digCh (y0 / 1000 % 10) (by omega), digVal_digCh (y0 / 100 % 10) (by omega),
      digVal_digCh (y0 / 10 % 10) (by omega), digVal_digCh (y0 % 10) (by omega)]
  have hyv : y0 / 1000 % 10 * 1000 + y0 / 100 % 10 * 100 + y0 / 10 % 10 * 10 + y0 % 10 = y0 := by
    omega
  have hmv : mo0 / 10 % 10 * 10 + mo0 % 10 = mo0 := by omega
  have hdle : daysInMonth y0 mo0 ≤ 31 := dim_le_31 y0 mo0
  have hdv : da0 / 10 % 10 * 10 + da0 % 10 = da0 := by omega
  have hhv : h0 / 10 % 10 * 10 + h0 % 10 = h0 := by omega
  have hiv : mi0 / 10 % 10 * 10 + mi0 % 10 = mi0 := by omega
  have hsv : s0 / 10 % 10 * 10 + s0 % 10 = s0 := by omega
  rw [hyv, hmv, hdv, hhv, hiv, hsv]
  have hc : pyDatetime y0 mo0 da0 h0 mi0 s0 (some 0) = .ok ⟨y0, mo0, da0, h0, mi0, s0, some 0⟩ := by
    unfold pyDatetime
    rw [if_pos]
    exact ⟨hy1, hy2, hm1, hm2, hd1, hd2, hh, hmi, hs⟩
  rw [hc]


theorem isoformat_isEmpty (u : PyDateTime) : (isoformat u).isEmpty = false := by
  obtain ⟨y0, mo0, da0, h0, mi0, s0, tz⟩ := u
  rfl

theorem fromiso_ok (s : Str) (dt : PyDateTime) (h : fromisoformat s = some dt) :
    validFields dt := by
  unfold fromisoformat at h
  split at h
  · split at h
    · rename_i hcond
      obtain ⟨mo1, hmo1, h⟩ := Option.bind_eq_some.mp h
      obtain ⟨da1, hda1, h⟩ := Option.bind_eq_some.mp h
      obtain ⟨h1, hh1, h⟩ := Option.bind_eq_some.mp h
      obtain ⟨mi1, hmi1, h⟩ := Option.bind_eq_some.mp h
      obtain ⟨s1, hs1, h⟩ := Option.bind_eq_some.mp h
      obtain ⟨off1, hoff1, h⟩ := Option.bind_eq_some.mp h
      dsimp only at h
      split at h
      · rename_i d hd
        have := (pyDatetime_ok _ _ _ _ _ _ _ _ hd).1
        rw [← Option.some.inj h]
        exact this
      · exact Option.noConfusion h
    · exact Option.noConfusion h
  · exact Option.noConfusion h

theorem astimezoneUTC_valid (d : PyDateTime) (off : Int) (u : PyDateTime)
    (hd : validFields d) (h : astimezoneUTC d off = .ok u) :
    validFields u ∧ u.tz = some 0 := by
  unfold astimezoneUTC at h
  split at h
  · have hu := (Except.ok.inj h).symm
    subst hu
    exact ⟨hd, rfl⟩
  · cases ha : addSecs d (-off * 60) with
    | error e =>
      rw [ha] at h
      exact Except.noConfusion h
    | ok d1 =>
      rw [ha] at h
      have hu := (Except.ok.inj h).symm
      subst hu
      have := addSecs_valid d _ d1 ha
      exact ⟨this.1, rfl⟩

/-- Helper: inversion of a normally-returning normalization of a present
string. -/
theorem normalize_ok_inv (off : Int) (s : Str) (y : Option Str)
    (h : normalize_due_to_utc off (some s) = .ok y) :
    (s.isEmpty = true ∧ y = none) ∨
    (s.isEmpty = false ∧ fromisoformat s = none ∧ y = some s) ∨
    (∃ u, validFields u ∧ u.tz = some 0 ∧ y = some (isoformat u)) := by
  unfold normalize_due_to_utc at h
  dsimp only at h
  by_cases he : s.isEmpty = true
  · left
    rw [if_pos he] at h
    exact ⟨he, (Except.ok.inj h).symm⟩
  · rw [if_neg he] at h
    cases hp : fromisoformat s with
    | none =>
      right; left
      rw [hp] at h
      dsimp only at h
      exact ⟨by simpa using he, rfl, (Except.ok.inj h).symm⟩
    | some dt =>
      right; right
      rw [hp] at h
      dsimp only at h
      have hvdt : validFields dt := fromiso_ok s dt hp
      cases ha : astimezoneUTC (if dt.tz.isNone = true then { dt with tz := some off } else dt)
          ((if dt.tz.isNone = true then { dt with tz := some off } else dt).tz.getD 0) with
      | error e =>
        rw [ha] at h
        exact Except.noConfusion h
      | ok u =>
        rw [ha] at h
        have hvd2 : validFields (if dt.tz.isNone = true then { dt with tz := some off } else dt) := by
          split
          · exact hvdt
          · exact hvdt
        have hu := astimezoneUTC_valid _ _ _ hvd2 ha
        exact ⟨u, hu.1, hu.2, (Except.ok.inj h).symm⟩


/-- C7 (counterexample): only `fromisoformat` sits inside the normalizer's
`try`; `astimezone(timezone.utc)` raises OverflowError when the UTC result
leaves years 1..9999, and the error propagates — so on this input normalize
neither returns a value (breaking "normalize(normalize(x)) == normalize(x)"
as stated for every x) nor renders the successfully parsed value. -/
theorem c7_counterexample :
    normalize_due_to_utc 0 (some (S "9999-12-31T23:00:00-02:00")) =
      .error .overflowError := by rfl

/-- C7 (corrected): restricted to inputs whose UTC conversion stays inside
years 1..9999 (i.e. whenever normalize returns normally): normalize(None) is
None; an unparseable non-empty string is returned unchanged (fail-open);
normalize is idempotent — a second application to any normal result is the
identity; and every successfully parsed value that converts in range is
rendered from a value carrying an explicit UTC (+00:00) offset (a naive
value gets the process-local offset attached before conversion). -/
theorem c7_normalize_idempotent_failopen (off : Int) :
    normalize_due_to_utc off none = .ok none ∧
    (∀ s : Str, s.isEmpty = false → fromisoformat s = none →
      normalize_due_to_utc off (some s) = .ok (some s)) ∧
    (∀ (s : Str) (y : Option Str), normalize_due_to_utc off (some s) = .ok y →
      normalize_due_to_utc off y = .ok y) ∧
    (∀ (s : Str) (dt : PyDateTime) (y : Option Str), fromisoformat s = some dt →
      normalize_due_to_utc off (some s) = .ok y →
      ∃ u, u.tz = some 0 ∧ y = some (isoformat u)) := by
  have fail_open : ∀ s : Str, s.isEmpty = false → fromisoformat s = none →
      normalize_due_to_utc off (some s) = .ok (some s) := by
    intro s hse hp
    unfold normalize_due_to_utc
    dsimp only
    rw [if_neg (by simp [hse]), hp]
    rfl
  have canon : ∀ u : PyDateTime, validFields u → u.tz = some 0 →
      normalize_due_to_utc off (some (isoformat u)) = .ok (some (isoformat u)) := by
    intro u hval hz
    obtain ⟨y0, mo0, da0, h0, mi0, s0, tz⟩ := u
    simp only at hz
    subst hz
    unfold normalize_due_to_utc
    dsimp only
    rw [if_neg (by simp [isoformat_isEmpty])]
    rw [fromiso_isoformat ⟨y0, mo0, da0, h0, mi0, s0, some 0⟩ hval rfl]
    rfl
  refine ⟨rfl, fail_open, ?_, ?_⟩
  · intro s y h
    rcases normalize_ok_inv off s y h with ⟨he, rfl⟩ | ⟨hne, hp, rfl⟩ | ⟨u, hval, hz, rfl⟩
    · rfl
    · exact fail_open s hne hp
    · exact canon u hval hz
  · intro s dt y hp h
    rcases normalize_ok_inv off s y h with ⟨he, rfl⟩ | ⟨hne, hp2, rfl⟩ | ⟨u, hval, hz, rfl⟩
    · exfalso
      have hnil : s = [] := by
        cases s with
        | nil => rfl
        | cons a l => exact absurd he (by simp)
      rw [hnil] at hp
      exact Option.noConfusion hp
    · rw [hp2] at hp
      exact Option.noConfusion hp
    · exact ⟨u, hz, rfl⟩

/-- Closed witness for C7: a naive local time (UTC+02:00 process zone) is
normalized once to +00:00, and normalizing the result again returns it
unchanged (idempotence via the theorem). -/
theorem c7_normalize_idempotent_failopen_witness :
    normalize_due_to_utc 120 (some (S "2024-01-01T09:00:00")) =
      .ok (some (S "2024-01-01T07:00:00+00:00")) ∧
    normalize_due_to_utc 120 (some (S "2024-01-01T07:00:00+00:00")) =
      .ok (some (S "2024-01-01T07:00:00+00:00")) :=
  ⟨by rfl,
   (c7_normalize_idempotent_failopen 120).2.2.1 (S "2024-01-01T09:00:00")
     (some (S "2024-01-01T07:00:00+00:00")) (by rfl)⟩


/-- C8 (counterexample): the claim says the reminder cues are looked up in
the ORIGINAL raw text; the code looks them up in raw.strip().  The raw text
"went in " (with trailing space) contains the cue " in ", so the claim
predicts TASK; the stripped text does not, no timestamp is extracted, and
the code classifies it MEMORY. -/
theorem c8_counterexample :
    parse_input nowSat (S "went in ") = .ok ⟨S "memory", S "went in", none⟩ ∧
    looksReminder (lowStr (S "went in ")) = true := by
  refine ⟨?_, ?_⟩
  · rfl
  · rfl

/-- C8 (corrected): classification yields TASK if and only if a timestamp
was extracted from the prefix-stripped text or the raw text STRIPPED OF
SURROUNDING WHITESPACE (but before prefix stripping), lower-cased, contains
one of the reminder cues; otherwise MEMORY — and in both cases the returned
text is the extractor's residual and the returned due the extractor's
timestamp. -/
theorem c8_classification (now : PyDateTime) (raw : Str) (res : ParseResult)
    (h : parse_input now raw = .ok res) :
    (res.kind = S "task" ↔
      (looksReminder (lowStr (pyStrip raw)) = true ∨ res.due.isSome = true)) ∧
    (res.kind = S "task" ∨ res.kind = S "memory") ∧
    ∃ cleaned due, extract_due now (strip_prefixes (pyStrip raw)) = .ok (cleaned, due) ∧
      res.text = cleaned ∧ res.due = due := by
  unfold parse_input at h
  cases he : extract_due now (strip_prefixes (pyStrip raw)) with
  | error e =>
    rw [he] at h
    exact Except.noConfusion h
  | ok cd =>
    obtain ⟨cleaned, due⟩ := cd
    rw [he] at h
    dsimp only at h
    obtain rfl : res = ⟨if looksReminder (lowStr (pyStrip raw)) = true ∨ due.isSome = true
        then S "task" else S "memory", cleaned, due⟩ := (Except.ok.inj h).symm
    refine ⟨?_, ?_, cleaned, due, rfl, rfl, rfl⟩
    · by_cases hc : looksReminder (lowStr (pyStrip raw)) = true ∨ due.isSome = true
      · rw [if_pos hc]
        simpa using hc
      · rw [if_neg hc]
        constructor
        · intro hk
          exact absurd hk (by show ¬ S "memory" = S "task"; decide)
        · intro hk
          exact absurd hk hc
    · by_cases hc : looksReminder (lowStr (pyStrip raw)) = true ∨ due.isSome = true
      · rw [if_pos hc]
        exact Or.inl rfl
      · rw [if_neg hc]
        exact Or.inr rfl

/-- Closed witness for C8: "remind me to call mom tomorrow at 3pm" is a TASK
whose text is the residual "call mom" and whose due is the extracted
timestamp. -/
theorem c8_classification_witness :
    (S "task" = S "task" ↔
      (looksReminder (lowStr (pyStrip (S "remind me to call mom tomorrow at 3pm"))) = true ∨
        (some (S "2024-06-16T15:00:00")).isSome = true)) ∧
    (S "task" = S "task" ∨ S "task" = S "memory") ∧
    ∃ cleaned due,
      extract_due nowSat (strip_prefixes (pyStrip (S "remind me to call mom tomorrow at 3pm"))) =
        .ok (cleaned, due) ∧ S "call mom" = cleaned ∧ some (S "2024-06-16T15:00:00") = due :=
  c8_classification nowSat (S "remind me to call mom tomorrow at 3pm")
    ⟨S "task", S "call mom", some (S "2024-06-16T15:00:00")⟩ (by rfl)

theorem add_task_inv (localOff : Int) (createdS : Str) (st : Store) (title : Str)
    (due : Option Str) (rr : Option Str) (res : Store × TaskRec)
    (h : add_task localOff createdS st title due rr = .ok res) :
    res.2.rrule = rr ∧ res.1.tasks = st.tasks ++ [res.2] := by
  unfold add_task at h
  cases hn : normalize_due_to_utc localOff due with
  | error e => rw [hn, exc_bind_err] at h; exact absurd h (by simp)
  | ok n =>
    rw [hn, exc_bind_ok] at h
    injection h with h'
    subst h'
    exact ⟨rfl, rfl⟩

theorem fieldUpdate_ok_preserves (localOff : Int) (kv : FieldKV) (f : TaskRec → TaskRec)
    (hkv : ∀ v, kv ≠ .rruleF v) (h : fieldUpdate localOff kv = .ok f) (t : TaskRec) :
    (f t).rrule = t.rrule := by
  cases kv with
  | titleF v =>
    simp only [fieldUpdate] at h
    injection h with h'
    subst h'
    rfl
  | dueF v =>
    simp only [fieldUpdate] at h
    cases hn : normalize_due_to_utc localOff (some v) with
    | error e => rw [hn] at h; exact absurd h (by simp [Except.map])
    | ok n =>
      rw [hn] at h
      simp only [Except.map] at h
      injection h with h'
      subst h'
      rfl
  | doneF v =>
    simp only [fieldUpdate] at h
    injection h with h'
    subst h'
    rfl
  | rruleF v => exact absurd rfl (hkv v)

theorem mapM_fieldUpdate_preserves (localOff : Int) :
    ∀ (l : List FieldKV) (ups : List (TaskRec → TaskRec)),
      (∀ kv ∈ l, ∀ v, kv ≠ FieldKV.rruleF v) →
      l.mapM (fieldUpdate localOff) = .ok ups →
      ∀ f ∈ ups, ∀ t, (f t).rrule = t.rrule := by
  intro l
  induction l with
  | nil =>
    intro ups _ h f hf t
    simp only [List.mapM_nil] at h
    injection h with h'
    subst h'
    cases hf
  | cons a l ih =>
    intro ups hno h f hf t
    rw [List.mapM_cons] at h
    cases ha : fieldUpdate localOff a with
    | error e => rw [ha, exc_bind_err] at h; exact absurd h (by simp)
    | ok fa =>
      rw [ha, exc_bind_ok] at h
      cases hl : l.mapM (fieldUpdate localOff) with
      | error e =>
        rw [hl, exc_bind_err] at h
        exact absurd h (by simp)
      | ok fs =>
        rw [hl, exc_bind_ok] at h
        injection h with h'
        subst h'
        cases hf with
        | head => exact fieldUpdate_ok_preserves localOff a f (hno a (List.mem_cons_self a l)) ha t
        | tail _ hf' =>
          exact ih fs (fun kv hkv v => hno kv (List.mem_cons_of_mem a hkv) v) hl f hf' t

theorem foldl_preserves_rrule :
    ∀ (ups : List (TaskRec → TaskRec)), (∀ f ∈ ups, ∀ (t : TaskRec), (f t).rrule = t.rrule) →
      ∀ (t : TaskRec), (List.foldl (fun (acc : TaskRec) (f : TaskRec → TaskRec) => f acc) t ups).rrule = t.rrule := by
  intro ups
  induction ups with
  | nil => intro _ t; rfl
  | cons f fs ih =>
    intro hp t
    rw [List.foldl_cons]
    rw [ih (fun g hg t => hp g (List.mem_cons_of_mem f hg) t) (f t)]
    exact hp f (List.mem_cons_self f fs) t

theorem map_ite_preserves_rrule (g : TaskRec → TaskRec) (hg : ∀ t, (g t).rrule = t.rrule)
    (q : Ident) :
    ∀ (l : List TaskRec),
      (l.map (fun t => if t.id = q then g t else t)).map TaskRec.rrule = l.map TaskRec.rrule := by
  intro l
  induction l with
  | nil => rfl
  | cons a l ih =>
    simp only [List.map_cons, ih]
    by_cases hpa : a.id = q
    · rw [if_pos hpa, hg a]
    · rw [if_neg hpa]

theorem patchFields_no_rrule (tp : TaskPatch) :
    ∀ kv ∈ patchFields tp, ∀ v, kv ≠ FieldKV.rruleF v := by
  intro kv hkv v heq
  subst heq
  obtain ⟨t, d, dn, r, p⟩ := tp
  cases t <;> cases d <;> cases dn <;> simp [patchFields] at hkv

theorem update_task_preserves_rrule (localOff : Int) (st : Store) (task_id : Int)
    (fields : List FieldKV) (hno : ∀ kv ∈ fields, ∀ v, kv ≠ FieldKV.rruleF v)
    (res : Store × Option TaskRec)
    (h : update_task localOff st task_id fields = .ok res) :
    res.1.tasks.map TaskRec.rrule = st.tasks.map TaskRec.rrule := by
  unfold update_task at h
  by_cases he : fields.isEmpty
  · rw [if_pos he] at h
    injection h with h'
    subst h'
    rfl
  · rw [if_neg he] at h
    cases hm : fields.mapM (fieldUpdate localOff) with
    | error e => rw [hm, exc_bind_err] at h; exact absurd h (by simp)
    | ok ups =>
      rw [hm, exc_bind_ok] at h
      dsimp only at h
      by_cases ha : st.tasks.any (fun t => t.id = .num task_id)
      · rw [if_pos ha] at h
        injection h with h'
        subst h'
        exact map_ite_preserves_rrule _
          (foldl_preserves_rrule ups (fun f hf t => mapM_fieldUpdate_preserves localOff fields ups hno hm f hf t))
          (.num task_id) st.tasks
      · rw [if_neg ha] at h
        injection h with h'
        subst h'
        rfl

/-- **C10.** Neither `post_task` nor `patch_task` ever writes the `rrule`
column: a row created through POST /tasks has `rrule = NULL` even when the
request body supplies one (the new row is appended and nothing else changes),
and a successful PATCH /tasks/{id} leaves every stored row's `rrule` exactly
as it was. -/
theorem c10_rrule_never_written (localOff localOff2 : Int) (now : PyDateTime) (createdS : Str)
    (st stP : Store) (tin : TaskIn) (res : Store × TaskRec)
    (task_id : Int) (tp : TaskPatch) (resP : Store × Option TaskRec)
    (hpost : post_task localOff now createdS st tin = .ok res)
    (hpatch : patch_task localOff2 stP task_id tp = .ok (some resP)) :
    (res.2.rrule = none ∧ res.1.tasks = st.tasks ++ [res.2]) ∧
    resP.1.tasks.map TaskRec.rrule = stP.tasks.map TaskRec.rrule := by
  constructor
  · have hp0 : post_task localOff now createdS st tin =
        (if (match tin.due with | none => true | some s => s.isEmpty) = true then
           (extract_due now tin.title) >>= (fun ce =>
             match ce with
             | (cleaned, extracted) =>
               match extracted with
               | some e => add_task localOff createdS st cleaned (some e) none
               | none => add_task localOff createdS st tin.title tin.due none)
         else add_task localOff createdS st tin.title tin.due none) := rfl
    rw [hp0] at hpost
    split at hpost
    · cases hex : extract_due now tin.title with
      | error e => rw [hex, exc_bind_err] at hpost; exact absurd hpost (by simp)
      | ok ce =>
        rw [hex, exc_bind_ok] at hpost
        obtain ⟨cleaned, extracted⟩ := ce
        cases extracted with
        | some e => exact add_task_inv localOff createdS st cleaned (some e) none res hpost
        | none => exact add_task_inv localOff createdS st tin.title tin.due none res hpost
    · exact add_task_inv localOff createdS st tin.title tin.due none res hpost
  · have hq0 : patch_task localOff2 stP task_id tp =
        (if (patchFields tp).isEmpty then pure none
         else (update_task localOff2 stP task_id (patchFields tp)).map some) := rfl
    rw [hq0] at hpatch
    split at hpatch
    · exact Option.noConfusion (Except.ok.inj hpatch)
    · cases hu : update_task localOff2 stP task_id (patchFields tp) with
      | error e => rw [hu] at hpatch; exact absurd hpatch (by simp [Except.map])
      | ok r =>
        rw [hu] at hpatch
        simp only [Except.map] at hpatch
        injection hpatch with h'
        injection h' with h''
        subst h''
        exact update_task_preserves_rrule localOff2 stP task_id (patchFields tp)
          (patchFields_no_rrule tp) r hu

theorem c10_rrule_never_written_witness :
    ((rowC10.rrule = none ∧ (⟨[rowC10], 2⟩ : Store).tasks = (⟨[], 1⟩ : Store).tasks ++ [rowC10]) ∧
      (⟨[rowPatchedC10], 6⟩ : Store).tasks.map TaskRec.rrule =
        stPatchC10.tasks.map TaskRec.rrule) :=
  c10_rrule_never_written 0 0 nowSat (S "c") ⟨[], 1⟩ stPatchC10 tinC10 (⟨[rowC10], 2⟩, rowC10)
    5 tpC10 (⟨[rowPatchedC10], 6⟩, some rowPatchedC10) (by rfl) (by rfl)

end Memoria
